import Mathlib

/-!
Verification of the checkpoint-reconciliation core of the repository
(`src/solver/_solver.py`) against its natural-language specification.

The embedding below translates the Python source shallowly:

* A tensor is modelled by its leading-dimension slices (`rows`, each row an
  opaque value of type `α`) together with the shape of each row
  (`restShape`), so `tensor.size()` is `rows.length :: restShape` and
  `torch.Size` comparison is lexicographic tuple comparison.
* Python dictionaries of parameters are association lists from `String`
  keys to tensors, first-match lookup.
* Fallible operations (out-of-range indexing raises `IndexError`, missing
  dictionary keys raise `KeyError`) return `Except`.
* `_adjust_head_parameters` mutates the pretrained dictionary in place; an
  exception escaping it leaves the partial mutations visible to the caller.
  This aliasing is modelled by returning the mutated dictionary in the
  error payload (`Except (SMapT α) ...`).
-/

namespace Solver

/-- A tensor: the list of its leading-dimension slices (each slice an opaque
value of type `α`) plus the shape of each slice. -/
structure Tensor (α : Type) where
  rows : List α
  restShape : List Nat
  deriving DecidableEq, Repr

/-- The full shape (`torch.Size`) of a tensor: leading dimension followed by
the per-row shape. -/
def tsize (t : Tensor α) : List Nat :=
  t.rows.length :: t.restShape

/-- Python tuple `<` on shapes: lexicographic, a strict prefix is smaller. -/
def sizeLt : List Nat → List Nat → Bool
  | [], [] => false
  | [], _ :: _ => true
  | _ :: _, [] => false
  | a :: as, b :: bs => if a < b then true else if b < a then false else sizeLt as bs

/-- One tensor row assignment `dst[di] = src[si]` as torch executes it:
fails (IndexError / shape error) when `si` is out of range of `src`, when
`di` is out of range of `dst`, or when the slice shapes disagree. -/
def copyRow (dst src : Tensor α) (di si : Nat) : Except Unit (Tensor α) :=
  match src.rows[si]? with
  | none => .error ()
  | some r =>
    if di < dst.rows.length then
      if src.restShape = dst.restShape then .ok ⟨dst.rows.set di r, dst.restShape⟩
      else .error ()
    else .error ()

/-- Run a list of `(destination, source)` row assignments in order, stopping
at the first failure. -/
def copyLoop (src : Tensor α) : List (Nat × Nat) → Tensor α → Except Unit (Tensor α)
  | [], t => .ok t
  | p :: rest, t =>
    match copyRow t src p.1 p.2 with
    | .error e => .error e
    | .ok t' => copyLoop src rest t'

/-- Python `enumerate` starting at index `i`. -/
def enumIds : List Nat → Nat → List (Nat × Nat)
  | [], _ => []
  | a :: as, i => (i, a) :: enumIds as (i + 1)

/-- The fixed 80-entry COCO→Objects365 correspondence table
(`BaseSolver.obj365_ids` in the source). -/
def obj365_ids : List Nat := [
  0, 46, 5, 58, 114, 55, 116, 65, 21, 40, 176, 127, 249, 24, 56, 139, 92, 78, 99, 96,
  144, 295, 178, 180, 38, 39, 13, 43, 120, 219, 148, 173, 165, 154, 137, 113, 145, 146,
  204, 8, 35, 10, 88, 84, 93, 26, 112, 82, 265, 104, 141, 152, 234, 143, 150, 97, 2,
  50, 25, 75, 98, 153, 37, 73, 115, 132, 106, 61, 163, 134, 277, 81, 133, 18, 94, 30,
  169, 70, 328, 226]

/-- `BaseSolver.map_class_weights(cur_tensor, pretrain_tensor)`.  Returns the
Python return value (`Option`: the source never returns `None`, but the
call-site tests for it) inside `Except` for the IndexErrors the row
assignments can raise.  `requires_grad = False` has no observable effect in
this value-level model and is not represented. -/
def map_class_weights (ids : List Nat) (cur pre : Tensor α) :
    Except Unit (Option (Tensor α)) :=
  if tsize pre = tsize cur then .ok (some pre)
  else if sizeLt (tsize cur) (tsize pre) then
    (copyLoop pre ((enumIds ids 0).map (fun p => (p.1, p.2 + 1))) cur).map some
  else
    (copyLoop pre ((enumIds ids 0).map (fun p => (p.2 + 1, p.1))) cur).map some

deriving instance DecidableEq for Except

/-- A Python dict of named values: an association list with unique keys
(first match wins on lookup). -/
abbrev SMapT (α : Type) := List (String × Tensor α)

/-- Dict lookup (`d[k]` / `k in d`): first binding of `k`. -/
def findVal : List (String × β) → String → Option β
  | [], _ => none
  | (k', v) :: rest, k => if k' = k then some v else findVal rest k

/-- Dict assignment `d[k] = v`: replaces the binding in place when the key is
present, appends otherwise (Python dicts keep insertion order). -/
def insertVal : List (String × β) → String → β → List (String × β)
  | [], k, v => [(k, v)]
  | (k0, v0) :: rest, k, v =>
    if k0 = k then (k, v) :: rest else (k0, v0) :: insertVal rest k v

/-- Dict deletion `del d[k]`. -/
def eraseVal : List (String × β) → String → List (String × β)
  | [], _ => []
  | (k0, v0) :: rest, k =>
    if k0 = k then eraseVal rest k else (k0, v0) :: eraseVal rest k

/-- `BaseSolver._matched_state(state, params)`: walk the target `state` in
order; a key found in `params` with equal shape goes to the matched mapping,
with unequal shape to the unmatched list, a key absent from `params` to the
missed list.  Returns `(matched, missed, unmatched)`. -/
def matched_state (state params : SMapT α) : SMapT α × List String × List String :=
  match state with
  | [] => ([], [], [])
  | (k, v) :: rest =>
    let r := matched_state rest params
    match findVal params k with
    | some w =>
      if tsize w = tsize v then ((k, w) :: r.1, r.2.1, r.2.2)
      else (r.1, r.2.1, k :: r.2.2)
    | none => (r.1, k :: r.2.1, r.2.2)

/-- The special denoising class-embedding key. -/
def dnKey : String := "decoder.denoising_class_embed.weight"

/-- The fixed list of head parameter names: the encoder score head pair and
one pair per decoder layer index 0..7, in source order. -/
def headParamNames : List String :=
  ["decoder.enc_score_head.weight", "decoder.enc_score_head.bias"] ++
    (List.range 8).flatMap (fun i =>
      ["decoder.dec_score_head." ++ toString i ++ ".weight",
       "decoder.dec_score_head." ++ toString i ++ ".bias"])

/-- One iteration of the head-parameter loop of
`BaseSolver._adjust_head_parameters`: on the running state
`(pretrain dict, adjusted_params, cannot-adjust diagnostics)`, process one
parameter name.  An exception escaping `map_class_weights` carries the
dictionary as already mutated (Python mutates it in place). -/
def adjustStep (ids : List Nat) (cur : SMapT α)
    (acc : Except (SMapT α) (SMapT α × List String × List String)) (name : String) :
    Except (SMapT α) (SMapT α × List String × List String) :=
  match acc with
  | .error e => .error e
  | .ok (p, adj, diag) =>
    match findVal cur name, findVal p name with
    | some cT, some pT =>
      match map_class_weights ids cT pT with
      | .error _ => .error p
      | .ok none => .ok (p, adj, diag ++ [name])
      | .ok (some t) => .ok (insertVal p name t, adj ++ [name], diag)
    | _, _ => .ok (p, adj, diag)

/-- `BaseSolver._adjust_head_parameters(cur_state_dict, pretrain_state_dict)`.
On success returns the adjusted pretrained dict together with the
`adjusted_params` list and the list of parameters the `None` diagnostic
branch would report.  On an exception (`KeyError` on the denoising lookup,
or an `IndexError` inside `map_class_weights`) the error payload is the
pretrained dict in its mutated state at the moment the exception was
raised, exactly as the in-place Python mutation leaves it for the caller. -/
def adjustHead (ids : List Nat) (cur pre : SMapT α) :
    Except (SMapT α) (SMapT α × List String × List String) :=
  match findVal pre dnKey with
  | none => .error pre
  | some pT =>
    match findVal cur dnKey with
    | none => .error pre
    | some cT =>
      let pre1 := if tsize pT ≠ tsize cT then eraseVal pre dnKey else pre
      headParamNames.foldl (adjustStep ids cur) (.ok (pre1, [], []))

/-- The adjust-then-match core of `BaseSolver.load_tuning_state` (after the
pretrained sub-blob has been selected): try the head adjustment; on success
match against the adjusted dict, on any exception fall back to matching
against the pretrained dict as the partial in-place mutation left it. -/
def load_tuning_core (ids : List Nat) (cur pre : SMapT α) :
    SMapT α × List String × List String :=
  match adjustHead ids cur pre with
  | .ok (adj, _, _) => matched_state cur adj
  | .error p => matched_state cur p

/-- Modelled from the spec: `nn.Module.load_state_dict(stat, strict=False)`
(the torch call at the end of `load_tuning_state`, outside this repository)
applies the matched keys and leaves every other current parameter at its
current value (spec 4.5: "matched keys applied, missed/unmatched keys left
at current initialization"). -/
def loadNonStrict (cur stat : SMapT α) : SMapT α :=
  cur.map (fun p =>
    match findVal stat p.1 with
    | some w => (p.1, w)
    | none => p)

/-- A tuning checkpoint as `load_tuning_state` consumes it: an optional
`ema` entry (represented directly by its inner `module` parameter mapping)
and an optional `model` entry. -/
structure TuneCkpt (α : Type) where
  ema : Option (SMapT α)
  model : Option (SMapT α)

/-- The sub-blob selection of `load_tuning_state`: the EMA shadow weights
when an `ema` entry exists, else the plain `model` entry; a `KeyError` when
neither exists. -/
def selectPretrain (s : TuneCkpt α) : Except Unit (SMapT α) :=
  match s.ema with
  | some m => .ok m
  | none =>
    match s.model with
    | some m => .ok m
    | none => .error ()

/-- `BaseSolver.load_tuning_state` after checkpoint deserialization: select
the pretrained sub-blob (fatal when absent), run the adjust-then-match core,
and apply the matched state non-strictly to the current model, returning the
new model parameters and the missed/unmatched report. -/
def load_tuning_state (ids : List Nat) (cur : SMapT α) (s : TuneCkpt α) :
    Except Unit (SMapT α × List String × List String) :=
  match selectPretrain s with
  | .error e => .error e
  | .ok pre =>
    let r := load_tuning_core ids cur pre
    .ok (loadNonStrict cur r.1, r.2.1, r.2.2)

/-- A component state blob inside a checkpoint: either a flat parameter
mapping (model-style state) or a nested mapping of named sub-blobs
(EMA-style `{'module': ...}` state). -/
inductive Blob (α : Type) where
  | leaf : List (String × α) → Blob α
  | nest : List (String × Blob α) → Blob α

/-- One attribute of the solver object (`self.__dict__` entry): its name,
whether it exposes `load_state_dict` (is restorable), and its state. -/
structure Attr (α : Type) where
  name : String
  restorable : Bool
  state : Blob α

/-- The solver pipeline as `load_state_dict` sees it: `last_epoch` plus the
ordered attribute dictionary. -/
structure Pipeline (α : Type) where
  lastEpoch : Int
  attrs : List (Attr α)

/-- A full checkpoint for the resume path: optional `last_epoch` plus named
component entries. -/
structure Ckpt (α : Type) where
  lastEpoch : Option Int
  entries : List (String × Blob α)

/-- Bool test that `p` is a prefix of `s` (char-level `String.startsWith`). -/
def hasPfx : List Char → List Char → Bool
  | [], _ => true
  | _ :: _, [] => false
  | a :: as, b :: bs => a = b && hasPfx as bs

/-- `remove_module_prefix(state_dict)`: strip a leading `module.` (7
characters) from every key that carries it. -/
def stripModule (m : List (String × α)) : List (String × α) :=
  m.map (fun p =>
    if hasPfx "module.".data p.1.data then (String.mk (p.1.data.drop 7), p.2) else p)

/-- `getattr(self, 'model', None)` followed by `model.state_dict()`: the
parameter mapping of the attribute named `model`, when it exists and its
state is a flat mapping. -/
def getModelMapping (attrs : List (Attr α)) : Option (List (String × α)) :=
  match attrs.find? (fun a => a.name == "model") with
  | some a =>
    match a.state with
    | .leaf m => some m
    | .nest _ => none
  | none => none

/-- One iteration of the restore loop of `BaseSolver.load_state_dict` for
attribute `a`, with `current` the full attribute dictionary at this point of
the loop (earlier iterations' mutations already applied).  Modelled from the
spec for the per-component call `v.load_state_dict(blob)` (the components'
own restore operations live outside this repository): spec 6 declares a
"stateful component" capability whose restore-state operation replaces the
component's state with the given sub-blob. -/
def restoreAttr (entries : List (String × Blob α)) (current : List (Attr α))
    (a : Attr α) : Attr α :=
  if a.restorable then
    match findVal entries a.name with
    | some b => { a with state := b }
    | none =>
      if a.name = "ema" then
        match getModelMapping current with
        | some m => { a with state := .nest [("module", .leaf (stripModule m))] }
        | none => a
      else a
  else a

/-- The restore loop of `BaseSolver.load_state_dict`: process the attribute
dictionary in order; at each step the lookup context is the already-processed
prefix together with the unprocessed suffix (in-place mutation made visible
to later iterations). -/
def lsdLoop (entries : List (String × Blob α)) (done todo : List (Attr α)) :
    List (Attr α) :=
  match todo with
  | [] => done
  | a :: rest =>
    lsdLoop entries (done ++ [restoreAttr entries (done ++ a :: rest) a]) rest

/-- `BaseSolver.load_state_dict(state)`: restore `last_epoch` first whenever
present, then run the per-component restore loop. -/
def load_state_dict (p : Pipeline α) (s : Ckpt α) : Pipeline α :=
  { lastEpoch :=
      match s.lastEpoch with
      | some e => e
      | none => p.lastEpoch,
    attrs := lsdLoop s.entries [] p.attrs }

/-- Written from the spec's words (claim C1, contraction case): a clone of
`cur` whose row `c` is overwritten by `pre`'s row `table[c] + 1` for every
compact index `c`, all other rows kept from `cur`. -/
def specContract [Inhabited α] (ids : List Nat) (cur pre : Tensor α) : Tensor α :=
  ⟨(List.range cur.rows.length).map (fun i =>
      if i < ids.length then pre.rows.getD (ids.getD i 0 + 1) default
      else cur.rows.getD i default),
    cur.restShape⟩

/-- Written from the spec's words (claim C1, expansion case): a clone of
`cur` whose row `table[c] + 1` is overwritten by `pre`'s row `c` for every
compact index `c`, all other rows (including row 0) kept from `cur`. -/
def specExpand [Inhabited α] (ids : List Nat) (cur pre : Tensor α) : Tensor α :=
  ⟨(List.range cur.rows.length).map (fun i =>
      match (enumIds ids 0).find? (fun p => decide (p.2 + 1 = i)) with
      | some p => pre.rows.getD p.1 default
      | none => cur.rows.getD i default),
    cur.restShape⟩

/-- Pure (always-succeeding) version of `copyLoop`, used to describe the
result of a successful run. -/
def pureLoop [Inhabited α] (src : Tensor α) : List (Nat × Nat) → Tensor α → Tensor α
  | [], t => t
  | p :: rest, t =>
    pureLoop src rest ⟨t.rows.set p.1 (src.rows.getD p.2 default), t.restShape⟩

theorem enumIds_length (l : List Nat) (i : Nat) : (enumIds l i).length = l.length := by
  induction l generalizing i with
  | nil => rfl
  | cons a as ih => simp [enumIds, ih]

theorem enumIds_map_fst (l : List Nat) (i : Nat) :
    (enumIds l i).map Prod.fst = List.range' i l.length := by
  induction l generalizing i with
  | nil => rfl
  | cons a as ih => simp [enumIds, List.range'_succ, ih]

theorem enumIds_snd_mem {l : List Nat} {i : Nat} {p : Nat × Nat}
    (hp : p ∈ enumIds l i) : p.2 ∈ l := by
  induction l generalizing i with
  | nil => simp [enumIds] at hp
  | cons a as ih =>
    simp only [enumIds, List.mem_cons] at hp
    rcases hp with h | h
    · subst h; simp
    · exact List.mem_cons_of_mem _ (ih h)

theorem mem_enumIds_of_getElem {l : List Nat} {j o : Nat} (h : l[j]? = some o)
    (i : Nat) : (i + j, o) ∈ enumIds l i := by
  induction l generalizing i j with
  | nil => simp at h
  | cons a as ih =>
    cases j with
    | zero =>
      simp at h
      simp [enumIds, h]
    | succ j' =>
      simp at h
      have hmem := ih h (i + 1)
      simp only [enumIds, List.mem_cons]
      right
      have he : i + (j' + 1) = i + 1 + j' := by omega
      rw [he]
      exact hmem

theorem enumIds_getElem_of_mem {l : List Nat} {i : Nat} {p : Nat × Nat}
    (hp : p ∈ enumIds l i) : i ≤ p.1 ∧ l[p.1 - i]? = some p.2 := by
  induction l generalizing i with
  | nil => simp [enumIds] at hp
  | cons a as ih =>
    simp only [enumIds, List.mem_cons] at hp
    rcases hp with h | h
    · subst h
      simp
    · obtain ⟨h1, h2⟩ := ih h
      refine ⟨by omega, ?_⟩
      have hne : p.1 - i = (p.1 - (i + 1)) + 1 := by omega
      rw [hne]
      simpa using h2

theorem pureLoop_restShape [Inhabited α] (src : Tensor α) (l : List (Nat × Nat))
    (t : Tensor α) : (pureLoop src l t).restShape = t.restShape := by
  induction l generalizing t with
  | nil => rfl
  | cons p rest ih => simp [pureLoop, ih]

theorem pureLoop_length [Inhabited α] (src : Tensor α) (l : List (Nat × Nat))
    (t : Tensor α) : (pureLoop src l t).rows.length = t.rows.length := by
  induction l generalizing t with
  | nil => rfl
  | cons p rest ih => simp [pureLoop, ih]

theorem copyLoop_eq_pure [Inhabited α] (src : Tensor α) (l : List (Nat × Nat))
    (t : Tensor α) (hsh : src.restShape = t.restShape)
    (hb : ∀ p ∈ l, p.2 < src.rows.length ∧ p.1 < t.rows.length) :
    copyLoop src l t = .ok (pureLoop src l t) := by
  induction l generalizing t with
  | nil => rfl
  | cons p rest ih =>
    obtain ⟨hs, hd⟩ := hb p (List.mem_cons_self p rest)
    have hget : src.rows[p.2]? = some src.rows[p.2] := List.getElem?_eq_getElem hs
    have hgetD : src.rows.getD p.2 default = src.rows[p.2] := by
      simp [List.getD_eq_getElem?_getD, hget]
    simp only [copyLoop, copyRow, hget, hd, if_pos, hsh, pureLoop, hgetD]
    exact ih _ hsh (fun q hq => ⟨(hb q (List.mem_cons_of_mem p hq)).1, by
      simpa using (hb q (List.mem_cons_of_mem p hq)).2⟩)

theorem pureLoop_getElem_notin [Inhabited α] (src : Tensor α) (l : List (Nat × Nat))
    (t : Tensor α) (i : Nat) (hi : i ∉ l.map Prod.fst) :
    (pureLoop src l t).rows[i]? = t.rows[i]? := by
  induction l generalizing t with
  | nil => rfl
  | cons p rest ih =>
    simp only [List.map_cons, List.mem_cons] at hi
    push_neg at hi
    simp only [pureLoop]
    rw [ih _ (by simpa using hi.2)]
    simp [List.getElem?_set_ne (fun h => hi.1 h.symm)]

theorem pureLoop_getElem_mem [Inhabited α] (src : Tensor α) (l : List (Nat × Nat))
    (t : Tensor α) (i s : Nat) (hnd : (l.map Prod.fst).Nodup)
    (hm : (i, s) ∈ l) (hlt : i < t.rows.length) :
    (pureLoop src l t).rows[i]? = some (src.rows.getD s default) := by
  induction l generalizing t with
  | nil => simp at hm
  | cons p rest ih =>
    simp only [List.map_cons, List.nodup_cons] at hnd
    rcases List.mem_cons.1 hm with h | h
    · have hp1 : p.1 = i := by rw [← h]
      have hp2 : p.2 = s := by rw [← h]
      have hnotin : i ∉ rest.map Prod.fst := by
        rw [← hp1]; exact hnd.1
      simp only [pureLoop]
      rw [pureLoop_getElem_notin _ _ _ _ hnotin, hp1, hp2]
      exact List.getElem?_set_eq_of_lt _ (by simpa using hlt)
    · simp only [pureLoop]
      exact ih _ hnd.2 h (by simpa using hlt)

theorem getElem?_lt_length {l : List β} {j : Nat} {o : β} (h : l[j]? = some o) :
    j < l.length := by
  by_contra hc
  rw [List.getElem?_eq_none (by omega)] at h
  exact Option.noConfusion h

theorem tsize_ne_of_length_ne {t u : Tensor α} (h : t.rows.length ≠ u.rows.length) :
    tsize t ≠ tsize u := by
  intro he
  exact h (List.head_eq_of_cons_eq he)

theorem sizeLt_cons_of_lt {a b : Nat} (s s' : List Nat) (h : a < b) :
    sizeLt (a :: s) (b :: s') = true := by
  simp [sizeLt, h]

theorem sizeLt_cons_of_gt {a b : Nat} (s s' : List Nat) (h : b < a) :
    sizeLt (a :: s) (b :: s') = false := by
  have : ¬ a < b := by omega
  simp [sizeLt, this, h]

theorem contract_pairs_map_fst (ids : List Nat) :
    (((enumIds ids 0).map (fun p => (p.1, p.2 + 1))).map Prod.fst) =
      List.range' 0 ids.length := by
  rw [List.map_map]
  have : (Prod.fst ∘ fun p : Nat × Nat => (p.1, p.2 + 1)) = Prod.fst := rfl
  rw [this, enumIds_map_fst]

theorem expand_pairs_map_fst (ids : List Nat) :
    (((enumIds ids 0).map (fun p => (p.2 + 1, p.1))).map Prod.fst) =
      ((enumIds ids 0).map Prod.snd).map (· + 1) := by
  rw [List.map_map, List.map_map]
  rfl

theorem enumIds_map_snd (l : List Nat) (i : Nat) :
    (enumIds l i).map Prod.snd = l := by
  induction l generalizing i with
  | nil => rfl
  | cons a as ih => simp [enumIds, ih]

/-- On a successful contraction run (superset pretrained tensor, compact
current tensor) `map_class_weights` returns exactly the tensor the spec
describes: rows `0..K-1` taken from `pre` at `table[c] + 1`, the remaining
rows kept from `cur`. -/
theorem mcw_contract [Inhabited α] (ids : List Nat) (cur pre : Tensor α)
    (hsh : pre.restShape = cur.restShape)
    (hids : ∀ o ∈ ids, o + 1 < pre.rows.length)
    (hlen : ids.length ≤ cur.rows.length)
    (hlt : cur.rows.length < pre.rows.length) :
    map_class_weights ids cur pre = .ok (some (specContract ids cur pre)) := by
  have hne : tsize pre ≠ tsize cur := tsize_ne_of_length_ne (by omega)
  have hslt : sizeLt (tsize cur) (tsize pre) = true :=
    sizeLt_cons_of_lt _ _ hlt
  rw [map_class_weights, if_neg hne, if_pos hslt]
  set l1 := (enumIds ids 0).map (fun p => (p.1, p.2 + 1)) with hl1
  have hb : ∀ p ∈ l1, p.2 < pre.rows.length ∧ p.1 < cur.rows.length := by
    intro p hp
    rw [hl1, List.mem_map] at hp
    obtain ⟨q, hq, hfq⟩ := hp
    have h2 : q.2 ∈ ids := enumIds_snd_mem hq
    obtain ⟨_, hget⟩ := enumIds_getElem_of_mem hq
    have hq1 : q.1 < ids.length := by
      have := getElem?_lt_length hget
      omega
    constructor
    · rw [← hfq]; exact hids q.2 h2
    · rw [← hfq]
      simp only
      omega
  rw [copyLoop_eq_pure pre l1 cur hsh hb]
  have hrows : (pureLoop pre l1 cur).rows = (specContract ids cur pre).rows := by
    apply List.ext_getElem?
    intro i
    by_cases hic : i < cur.rows.length
    · have hspec : (specContract ids cur pre).rows[i]? =
          some (if i < ids.length then pre.rows.getD (ids.getD i 0 + 1) default
            else cur.rows.getD i default) := by
        rw [specContract]
        rw [List.getElem?_map]
        rw [List.getElem?_range hic]
        rfl
      rw [hspec]
      by_cases hi : i < ids.length
      · have hgi : ids[i]? = some ids[i] := List.getElem?_eq_getElem hi
        have hmem : (i, ids[i] + 1) ∈ l1 := by
          rw [hl1, List.mem_map]
          exact ⟨(0 + i, ids[i]), mem_enumIds_of_getElem hgi 0, by simp⟩
        have hnd : (l1.map Prod.fst).Nodup := by
          rw [hl1, contract_pairs_map_fst]
          exact List.nodup_range' _ _ 1 Nat.one_pos
        rw [pureLoop_getElem_mem pre l1 cur i (ids[i] + 1) hnd hmem hic]
        have : ids.getD i 0 = ids[i] := by
          simp [List.getD_eq_getElem?_getD, hgi]
        rw [if_pos hi, this]
      · have hnotin : i ∉ l1.map Prod.fst := by
          rw [hl1, contract_pairs_map_fst]
          intro hmem
          rw [List.mem_range'_1] at hmem
          omega
        rw [pureLoop_getElem_notin pre l1 cur i hnotin]
        rw [if_neg hi]
        rw [List.getElem?_eq_getElem hic]
        congr 1
        simp [List.getD_eq_getElem?_getD, List.getElem?_eq_getElem hic]
    · rw [List.getElem?_eq_none, List.getElem?_eq_none]
      · simp [specContract]
        omega
      · rw [pureLoop_length]
        omega
  have hrest : (pureLoop pre l1 cur).restShape = (specContract ids cur pre).restShape := by
    rw [pureLoop_restShape]
    rfl
  have : pureLoop pre l1 cur = specContract ids cur pre := by
    cases hpl : pureLoop pre l1 cur
    cases hsc : specContract ids cur pre
    rw [hpl, hsc] at hrows hrest
    simp at hrows hrest
    simp [hrows, hrest]
  rw [this]
  rfl

/-- On a successful expansion run (compact pretrained tensor, superset
current tensor) `map_class_weights` returns exactly the tensor the spec
describes: row `table[c] + 1` taken from `pre` at `c` for each compact `c`,
all other rows (including row 0) kept from `cur`. -/
theorem mcw_expand [Inhabited α] (ids : List Nat) (cur pre : Tensor α)
    (hsh : pre.restShape = cur.restShape)
    (hnodup : ids.Nodup)
    (hids : ∀ o ∈ ids, o + 1 < cur.rows.length)
    (hlen : ids.length ≤ pre.rows.length)
    (hlt : pre.rows.length < cur.rows.length) :
    map_class_weights ids cur pre = .ok (some (specExpand ids cur pre)) := by
  have hne : tsize pre ≠ tsize cur := tsize_ne_of_length_ne (by omega)
  have hslt : sizeLt (tsize cur) (tsize pre) = false :=
    sizeLt_cons_of_gt _ _ hlt
  rw [map_class_weights, if_neg hne, hslt]
  simp only [Bool.false_eq_true, if_false]
  set l2 := (enumIds ids 0).map (fun p => (p.2 + 1, p.1)) with hl2
  have hb : ∀ p ∈ l2, p.2 < pre.rows.length ∧ p.1 < cur.rows.length := by
    intro p hp
    rw [hl2, List.mem_map] at hp
    obtain ⟨q, hq, hfq⟩ := hp
    have h2 : q.2 ∈ ids := enumIds_snd_mem hq
    obtain ⟨_, hget⟩ := enumIds_getElem_of_mem hq
    have hq1 : q.1 < ids.length := by
      have := getElem?_lt_length hget
      omega
    constructor
    · rw [← hfq]
      simp only
      omega
    · rw [← hfq]
      exact hids q.2 h2
  rw [copyLoop_eq_pure pre l2 cur hsh hb]
  have hnd : (l2.map Prod.fst).Nodup := by
    rw [hl2, expand_pairs_map_fst, enumIds_map_snd]
    exact hnodup.map (fun a b h => by omega)
  have hrows : (pureLoop pre l2 cur).rows = (specExpand ids cur pre).rows := by
    apply List.ext_getElem?
    intro i
    by_cases hic : i < cur.rows.length
    · have hspec : (specExpand ids cur pre).rows[i]? =
          some (match (enumIds ids 0).find? (fun p => decide (p.2 + 1 = i)) with
            | some p => pre.rows.getD p.1 default
            | none => cur.rows.getD i default) := by
        rw [specExpand]
        rw [List.getElem?_map]
        rw [List.getElem?_range hic]
        rfl
      rw [hspec]
      cases hf : (enumIds ids 0).find? (fun p => decide (p.2 + 1 = i)) with
      | some q =>
        have hqmem : q ∈ enumIds ids 0 := List.mem_of_find?_eq_some hf
        have hqp : q.2 + 1 = i := by
          have := List.find?_some hf
          simpa using this
        have hmem : (i, q.1) ∈ l2 := by
          rw [hl2, List.mem_map]
          exact ⟨q, hqmem, by rw [hqp]⟩
        rw [pureLoop_getElem_mem pre l2 cur i q.1 hnd hmem hic]
      | none =>
        have hnotin : i ∉ l2.map Prod.fst := by
          rw [hl2, expand_pairs_map_fst]
          intro hmem
          rw [List.mem_map] at hmem
          obtain ⟨o, ho, hoe⟩ := hmem
          rw [List.mem_map] at ho
          obtain ⟨q, hq, hqe⟩ := ho
          have := List.find?_eq_none.1 hf q hq
          simp only [decide_eq_true_eq] at this
          exact this (by rw [hqe]; exact hoe)
        rw [pureLoop_getElem_notin pre l2 cur i hnotin]
        rw [List.getElem?_eq_getElem hic]
        congr 1
        simp [List.getD_eq_getElem?_getD, List.getElem?_eq_getElem hic]
    · rw [List.getElem?_eq_none, List.getElem?_eq_none]
      · simp [specExpand]
        omega
      · rw [pureLoop_length]
        omega
  have hrest : (pureLoop pre l2 cur).restShape = (specExpand ids cur pre).restShape := by
    rw [pureLoop_restShape]
    rfl
  have : pureLoop pre l2 cur = specExpand ids cur pre := by
    cases hpl : pureLoop pre l2 cur
    cases hsc : specExpand ids cur pre
    rw [hpl, hsc] at hrows hrest
    simp at hrows hrest
    simp [hrows, hrest]
  rw [this]
  rfl

theorem obj365_ids_length : obj365_ids.length = 80 := rfl

theorem obj365_ids_bound : ∀ o ∈ obj365_ids, o + 1 < 330 := by decide

theorem obj365_ids_nodup : obj365_ids.Nodup := by decide

theorem findVal_eq_none_iff (m : List (String × β)) (k : String) :
    findVal m k = none ↔ k ∉ m.map Prod.fst := by
  induction m with
  | nil => simp [findVal]
  | cons kv rest ih =>
    obtain ⟨k0, v0⟩ := kv
    by_cases hk : k0 = k
    · subst hk
      simp [findVal]
    · simp only [findVal, List.map_cons, List.mem_cons]
      rw [if_neg hk, ih]
      simp only [not_or]
      constructor
      · intro h
        exact ⟨fun he => hk he.symm, h⟩
      · intro h
        exact h.2

theorem findVal_insert_self (m : List (String × β)) (k : String) (v : β) :
    findVal (insertVal m k v) k = some v := by
  induction m with
  | nil => simp [insertVal, findVal]
  | cons kv rest ih =>
    obtain ⟨k0, v0⟩ := kv
    by_cases h0 : k0 = k
    · simp [insertVal, h0, findVal]
    · simp only [insertVal]
      rw [if_neg h0]
      simp only [findVal]
      rw [if_neg h0]
      exact ih

theorem findVal_insert_other (m : List (String × β)) (k k' : String) (v : β)
    (hk : k' ≠ k) : findVal (insertVal m k v) k' = findVal m k' := by
  induction m with
  | nil =>
    simp only [insertVal, findVal]
    rw [if_neg (fun h => hk h.symm)]
  | cons kv rest ih =>
    obtain ⟨k0, v0⟩ := kv
    by_cases h0 : k0 = k
    · subst h0
      simp only [insertVal, if_pos rfl, findVal]
      rw [if_neg (fun h => hk h.symm), if_neg (fun h => hk h.symm)]
    · simp only [insertVal]
      rw [if_neg h0]
      simp only [findVal]
      by_cases h2 : k0 = k'
      · rw [if_pos h2, if_pos h2]
      · rw [if_neg h2, if_neg h2]
        exact ih

theorem findVal_erase_self (m : List (String × β)) (k : String) :
    findVal (eraseVal m k) k = none := by
  induction m with
  | nil => rfl
  | cons kv rest ih =>
    obtain ⟨k0, v0⟩ := kv
    by_cases h0 : k0 = k
    · simpa [eraseVal, h0] using ih
    · simp only [eraseVal]
      rw [if_neg h0]
      simp only [findVal]
      rw [if_neg h0]
      exact ih

theorem findVal_erase_other (m : List (String × β)) (k k' : String) (hk : k' ≠ k) :
    findVal (eraseVal m k) k' = findVal m k' := by
  induction m with
  | nil => rfl
  | cons kv rest ih =>
    obtain ⟨k0, v0⟩ := kv
    by_cases h0 : k0 = k
    · subst h0
      simp only [eraseVal]
      rw [if_pos trivial]
      simp only [findVal]
      rw [if_neg (fun h : k0 = k' => hk h.symm)]
      exact ih
    · simp only [eraseVal]
      rw [if_neg h0]
      simp only [findVal]
      by_cases h2 : k0 = k'
      · rw [if_pos h2, if_pos h2]
      · rw [if_neg h2, if_neg h2]
        exact ih

theorem ms_missed_mem (state params : SMapT α) (k : String) :
    k ∈ (matched_state state params).2.1 ↔
      (∃ v, findVal state k = some v) ∧ findVal params k = none := by
  induction state with
  | nil => simp [matched_state, findVal]
  | cons kv rest ih =>
    obtain ⟨k0, v0⟩ := kv
    simp only [matched_state]
    by_cases hk : k0 = k
    · subst hk
      cases hp : findVal params k0 with
      | some w =>
        by_cases hsz : tsize w = tsize v0
        · simp only [hp, if_pos hsz]
          rw [ih]
          simp [findVal, hp]
        · simp only [hp, if_neg hsz]
          rw [ih]
          simp [findVal, hp]
      | none =>
        simp only [hp, List.mem_cons]
        rw [ih]
        simp [findVal, hp]
    · cases hp : findVal params k0 with
      | some w =>
        by_cases hsz : tsize w = tsize v0
        · simp only [hp, if_pos hsz]
          rw [ih]
          simp only [findVal]
          rw [if_neg hk]
        · simp only [hp, if_neg hsz]
          rw [ih]
          simp only [findVal]
          rw [if_neg hk]
      | none =>
        simp only [hp, List.mem_cons]
        rw [ih]
        simp only [findVal]
        rw [if_neg hk]
        constructor
        · rintro (h | h)
          · exact absurd h.symm hk
          · exact h
        · intro h
          exact Or.inr h

theorem ms_un_state (state params : SMapT α) (k : String) :
    k ∈ (matched_state state params).2.2 → ∃ v, findVal state k = some v := by
  induction state with
  | nil => simp [matched_state]
  | cons kv rest ih =>
    obtain ⟨k0, v0⟩ := kv
    simp only [matched_state, findVal]
    by_cases hk : k0 = k
    · intro _
      rw [if_pos hk]
      exact ⟨v0, rfl⟩
    · rw [if_neg hk]
      cases hp : findVal params k0 with
      | some w =>
        by_cases hsz : tsize w = tsize v0
        · simp only [if_pos hsz]
          exact ih
        · simp only [if_neg hsz, List.mem_cons]
          rintro (h | h)
          · exact absurd h.symm hk
          · exact ih h
      | none =>
        exact ih

theorem ms_un_params (state params : SMapT α) (k : String) :
    k ∈ (matched_state state params).2.2 → ∃ w, findVal params k = some w := by
  induction state with
  | nil => simp [matched_state]
  | cons kv rest ih =>
    obtain ⟨k0, v0⟩ := kv
    simp only [matched_state]
    cases hp : findVal params k0 with
    | some w =>
      by_cases hsz : tsize w = tsize v0
      · simp only [if_pos hsz]
        exact ih
      · simp only [if_neg hsz, List.mem_cons]
        rintro (h | h)
        · subst h
          exact ⟨w, hp⟩
        · exact ih h
    | none =>
      exact ih

theorem ms_matched_keys (state params : SMapT α) (k : String) :
    (findVal (matched_state state params).1 k).isSome →
      ∃ v, findVal state k = some v := by
  induction state with
  | nil => simp [matched_state, findVal]
  | cons kv rest ih =>
    obtain ⟨k0, v0⟩ := kv
    simp only [matched_state, findVal]
    by_cases hk : k0 = k
    · intro _
      rw [if_pos hk]
      exact ⟨v0, rfl⟩
    · rw [if_neg hk]
      cases hp : findVal params k0 with
      | some w =>
        by_cases hsz : tsize w = tsize v0
        · simp only [if_pos hsz, findVal]
          rw [if_neg hk]
          exact ih
        · simp only [if_neg hsz]
          exact ih
      | none =>
        exact ih

theorem ms_un_mem (state params : SMapT α) (k : String)
    (hnd : (state.map Prod.fst).Nodup) :
    k ∈ (matched_state state params).2.2 ↔
      ∃ v w, findVal state k = some v ∧ findVal params k = some w ∧
        tsize w ≠ tsize v := by
  induction state with
  | nil => simp [matched_state, findVal]
  | cons kv rest ih =>
    obtain ⟨k0, v0⟩ := kv
    simp only [List.map_cons, List.nodup_cons] at hnd
    simp only [matched_state]
    by_cases hk : k0 = k
    · subst hk
      have hrest : findVal rest k0 = none :=
        (findVal_eq_none_iff rest k0).2 hnd.1
      cases hp : findVal params k0 with
      | some w =>
        by_cases hsz : tsize w = tsize v0
        · simp only [hp, if_pos hsz]
          constructor
          · intro h
            obtain ⟨v, hv⟩ := ms_un_state rest params k0 h
            rw [hrest] at hv
            exact Option.noConfusion hv
          · rintro ⟨v, w', hv, hw, hne⟩
            cases hw
            rw [findVal] at hv
            rw [if_pos rfl] at hv
            cases hv
            exact absurd hsz hne
        · simp only [hp, if_neg hsz, List.mem_cons]
          constructor
          · intro _
            refine ⟨v0, w, ?_, rfl, hsz⟩
            rw [findVal]
            rw [if_pos rfl]
          · intro _
            exact Or.inl trivial
      | none =>
        simp only [hp]
        constructor
        · intro h
          obtain ⟨v, hv⟩ := ms_un_state rest params k0 h
          rw [hrest] at hv
          exact Option.noConfusion hv
        · rintro ⟨v, w', hv, hw, hne⟩
          exact Option.noConfusion hw
    · have hfind : findVal ((k0, v0) :: rest) k = findVal rest k := by
        rw [findVal, if_neg hk]
      cases hp : findVal params k0 with
      | some w =>
        by_cases hsz : tsize w = tsize v0
        · simp only [hp, if_pos hsz]
          rw [ih hnd.2, hfind]
        · simp only [hp, if_neg hsz, List.mem_cons]
          rw [ih hnd.2, hfind]
          constructor
          · rintro (h | h)
            · exact absurd h.symm hk
            · exact h
          · intro h
            exact Or.inr h
      | none =>
        simp only [hp]
        rw [ih hnd.2, hfind]

theorem ms_matched_find (state params : SMapT α) (k : String)
    (hnd : (state.map Prod.fst).Nodup) (w : Tensor α) :
    findVal (matched_state state params).1 k = some w ↔
      ∃ v, findVal state k = some v ∧ findVal params k = some w ∧
        tsize w = tsize v := by
  induction state with
  | nil => simp [matched_state, findVal]
  | cons kv rest ih =>
    obtain ⟨k0, v0⟩ := kv
    simp only [List.map_cons, List.nodup_cons] at hnd
    simp only [matched_state]
    by_cases hk : k0 = k
    · subst hk
      have hrest : findVal rest k0 = none :=
        (findVal_eq_none_iff rest k0).2 hnd.1
      cases hp : findVal params k0 with
      | some w' =>
        by_cases hsz : tsize w' = tsize v0
        · simp only [hp, if_pos hsz]
          rw [findVal]
          rw [if_pos rfl]
          constructor
          · intro h
            cases h
            refine ⟨v0, ?_, rfl, hsz⟩
            rw [findVal]
            rw [if_pos rfl]
          · rintro ⟨v, hv, hw, hsz'⟩
            cases hw
            rfl
        · simp only [hp, if_neg hsz]
          constructor
          · intro h
            have : (findVal (matched_state rest params).1 k0).isSome := by
              rw [h]; rfl
            obtain ⟨v, hv⟩ := ms_matched_keys rest params k0 this
            rw [hrest] at hv
            exact Option.noConfusion hv
          · rintro ⟨v, hv, hw, hsz'⟩
            cases hw
            rw [findVal] at hv
            rw [if_pos rfl] at hv
            cases hv
            exact absurd hsz' hsz
      | none =>
        simp only [hp]
        constructor
        · intro h
          have : (findVal (matched_state rest params).1 k0).isSome := by
            rw [h]; rfl
          obtain ⟨v, hv⟩ := ms_matched_keys rest params k0 this
          rw [hrest] at hv
          exact Option.noConfusion hv
        · rintro ⟨v, hv, hw, hsz'⟩
          exact Option.noConfusion hw
    · have hfind : findVal ((k0, v0) :: rest) k = findVal rest k := by
        rw [findVal, if_neg hk]
      cases hp : findVal params k0 with
      | some w' =>
        by_cases hsz : tsize w' = tsize v0
        · simp only [hp, if_pos hsz, findVal]
          simp only [if_neg hk]
          rw [ih hnd.2]
        · simp only [hp, if_neg hsz]
          rw [ih hnd.2, hfind]
      | none =>
        simp only [hp]
        rw [ih hnd.2, hfind]

theorem mcw_not_none (ids : List Nat) (cur pre : Tensor α) (r : Option (Tensor α))
    (h : map_class_weights ids cur pre = .ok r) : ∃ t, r = some t := by
  rw [map_class_weights] at h
  split at h
  · cases h
    exact ⟨pre, rfl⟩
  · split at h
    · cases hc : copyLoop pre ((enumIds ids 0).map fun p => (p.1, p.2 + 1)) cur with
      | ok t =>
        rw [hc] at h
        simp only [Except.map] at h
        cases h
        exact ⟨t, rfl⟩
      | error e =>
        rw [hc] at h
        simp only [Except.map] at h
        exact Except.noConfusion h
    · cases hc : copyLoop pre ((enumIds ids 0).map fun p => (p.2 + 1, p.1)) cur with
      | ok t =>
        rw [hc] at h
        simp only [Except.map] at h
        cases h
        exact ⟨t, rfl⟩
      | error e =>
        rw [hc] at h
        simp only [Except.map] at h
        exact Except.noConfusion h

theorem adjust_fold_error (ids : List Nat) (cur : SMapT α) (names : List String)
    (e : SMapT α) : names.foldl (adjustStep ids cur) (.error e) = .error e := by
  induction names with
  | nil => rfl
  | cons n rest ih =>
    rw [List.foldl_cons]
    exact ih

theorem adjust_fold_diag (ids : List Nat) (cur : SMapT α) (names : List String) :
    ∀ (p : SMapT α) (a : List String) (res : SMapT α × List String × List String),
      names.foldl (adjustStep ids cur) (.ok (p, a, [])) = .ok res → res.2.2 = [] := by
  induction names with
  | nil =>
    intro p a res h
    cases h
    rfl
  | cons n rest ih =>
    intro p a res h
    rw [List.foldl_cons] at h
    cases hc : findVal cur n with
    | none =>
      simp only [adjustStep, hc] at h
      exact ih p a res h
    | some cT =>
      cases hp : findVal p n with
      | none =>
        simp only [adjustStep, hc, hp] at h
        exact ih p a res h
      | some pT =>
        simp only [adjustStep, hc, hp] at h
        cases hm : map_class_weights ids cT pT with
        | error e =>
          rw [hm] at h
          rw [adjust_fold_error] at h
          exact Except.noConfusion h
        | ok r =>
          obtain ⟨t, ht⟩ := mcw_not_none ids cT pT r hm
          subst ht
          rw [hm] at h
          exact ih _ _ res h

theorem adjust_fold_keeps_none (ids : List Nat) (cur : SMapT α) (names : List String) :
    ∀ (p : SMapT α) (a d : List String) (k : String), k ∉ names → findVal p k = none →
      (∀ res, names.foldl (adjustStep ids cur) (.ok (p, a, d)) = .ok res →
        findVal res.1 k = none) ∧
      (∀ e, names.foldl (adjustStep ids cur) (.ok (p, a, d)) = .error e →
        findVal e k = none) := by
  induction names with
  | nil =>
    intro p a d k _ hnone
    constructor
    · intro res h
      cases h
      exact hnone
    · intro e h
      exact Except.noConfusion h
  | cons n rest ih =>
    intro p a d k hk hnone
    have hkn : k ≠ n := fun h => hk (h ▸ List.mem_cons_self n rest)
    have hkr : k ∉ rest := fun h => hk (List.mem_cons_of_mem n h)
    constructor
    · intro res h
      rw [List.foldl_cons] at h
      cases hc : findVal cur n with
      | none =>
        simp only [adjustStep, hc] at h
        exact (ih p a d k hkr hnone).1 res h
      | some cT =>
        cases hp : findVal p n with
        | none =>
          simp only [adjustStep, hc, hp] at h
          exact (ih p a d k hkr hnone).1 res h
        | some pT =>
          simp only [adjustStep, hc, hp] at h
          cases hm : map_class_weights ids cT pT with
          | error e =>
            rw [hm] at h
            rw [adjust_fold_error] at h
            exact Except.noConfusion h
          | ok r =>
            rw [hm] at h
            cases r with
            | none =>
              exact (ih p a _ k hkr hnone).1 res h
            | some t =>
              have : findVal (insertVal p n t) k = none := by
                rw [findVal_insert_other p n k t hkn]
                exact hnone
              exact (ih _ _ d k hkr this).1 res h
    · intro e h
      rw [List.foldl_cons] at h
      cases hc : findVal cur n with
      | none =>
        simp only [adjustStep, hc] at h
        exact (ih p a d k hkr hnone).2 e h
      | some cT =>
        cases hp : findVal p n with
        | none =>
          simp only [adjustStep, hc, hp] at h
          exact (ih p a d k hkr hnone).2 e h
        | some pT =>
          simp only [adjustStep, hc, hp] at h
          cases hm : map_class_weights ids cT pT with
          | error e' =>
            rw [hm] at h
            rw [adjust_fold_error] at h
            cases h
            exact hnone
          | ok r =>
            rw [hm] at h
            cases r with
            | none =>
              exact (ih p a _ k hkr hnone).2 e h
            | some t =>
              have : findVal (insertVal p n t) k = none := by
                rw [findVal_insert_other p n k t hkn]
                exact hnone
              exact (ih _ _ d k hkr this).2 e h

theorem dnKey_not_head : dnKey ∉ headParamNames := by decide

theorem headParamNames_cons :
    headParamNames = "decoder.enc_score_head.weight" :: headParamNames.tail := by
  rfl

theorem fold_head_error (ids : List Nat) (cur : SMapT α) (n : String)
    (rest : List String) (p : SMapT α) (a d : List String) (cT pT : Tensor α)
    (hc : findVal cur n = some cT) (hp : findVal p n = some pT)
    (hm : map_class_weights ids cT pT = .error ()) :
    (n :: rest).foldl (adjustStep ids cur) (.ok (p, a, d)) = .error p := by
  rw [List.foldl_cons]
  simp only [adjustStep, hc, hp, hm]
  exact adjust_fold_error ids cur rest p

theorem adjustHead_keeps_dn_none (ids : List Nat) (cur pre : SMapT α)
    (cT pT : Tensor α) (hcdn : findVal cur dnKey = some cT)
    (hpdn : findVal pre dnKey = some pT) (hne : tsize pT ≠ tsize cT) :
    (∀ res, adjustHead ids cur pre = .ok res → findVal res.1 dnKey = none) ∧
    (∀ e, adjustHead ids cur pre = .error e → findVal e dnKey = none) := by
  have hstart : findVal (eraseVal pre dnKey) dnKey = none := findVal_erase_self pre dnKey
  have hkeep := adjust_fold_keeps_none ids cur headParamNames (eraseVal pre dnKey)
    [] [] dnKey dnKey_not_head hstart
  constructor
  · intro res h
    simp only [adjustHead, hpdn, hcdn, if_pos hne] at h
    exact hkeep.1 res h
  · intro e h
    simp only [adjustHead, hpdn, hcdn, if_pos hne] at h
    exact hkeep.2 e h

/-- Claim C1 (amended).  The three-way case split of `map_class_weights`
holds as the claim states it on every pair of tensors whose shapes the fixed
80-entry table can address (equal slice shapes; when the leading dimensions
differ, the smaller tensor has at least 80 rows and the larger at least 330,
so that all table-addressed row indices are in range): identical shapes
return the pretrained tensor unchanged; a larger pretrained tensor yields
the clone of `cur` with row `c` overwritten by `pre[table[c] + 1]` for
`c < 80`; a larger current tensor yields the clone of `cur` with row
`table[c] + 1` overwritten by `pre[c]`, all other rows (including row 0)
unchanged.  Outside those bounds the code raises IndexError instead of
producing the described tensor (see the counterexample). -/
theorem c1_remap_cases [Inhabited α] (cur pre : Tensor α)
    (hsh : pre.restShape = cur.restShape) :
    (tsize pre = tsize cur → map_class_weights obj365_ids cur pre = .ok (some pre)) ∧
    (cur.rows.length < pre.rows.length → 80 ≤ cur.rows.length →
      330 ≤ pre.rows.length →
      map_class_weights obj365_ids cur pre =
        .ok (some (specContract obj365_ids cur pre))) ∧
    (pre.rows.length < cur.rows.length → 80 ≤ pre.rows.length →
      330 ≤ cur.rows.length →
      map_class_weights obj365_ids cur pre =
        .ok (some (specExpand obj365_ids cur pre))) := by
  refine ⟨?_, ?_, ?_⟩
  · intro h
    rw [map_class_weights, if_pos h]
  · intro h1 h2 h3
    refine mcw_contract obj365_ids cur pre hsh ?_ ?_ h1
    · intro o ho
      have := obj365_ids_bound o ho
      omega
    · rw [obj365_ids_length]
      exact h2
  · intro h1 h2 h3
    refine mcw_expand obj365_ids cur pre hsh obj365_ids_nodup ?_ ?_ h1
    · intro o ho
      have := obj365_ids_bound o ho
      omega
    · rw [obj365_ids_length]
      exact h2

/-- Witness for C1: a concrete 81-row current tensor against a concrete
366-row pretrained tensor takes the contraction branch and produces exactly
the described result. -/
theorem c1_remap_cases_witness :
    ((⟨List.range 366, []⟩ : Tensor Nat).restShape =
      (⟨List.replicate 81 5, []⟩ : Tensor Nat).restShape) ∧
    (⟨List.replicate 81 5, []⟩ : Tensor Nat).rows.length <
      (⟨List.range 366, []⟩ : Tensor Nat).rows.length ∧
    80 ≤ (⟨List.replicate 81 5, []⟩ : Tensor Nat).rows.length ∧
    330 ≤ (⟨List.range 366, []⟩ : Tensor Nat).rows.length ∧
    map_class_weights obj365_ids (⟨List.replicate 81 5, []⟩ : Tensor Nat)
        ⟨List.range 366, []⟩ =
      .ok (some (specContract obj365_ids ⟨List.replicate 81 5, []⟩
        ⟨List.range 366, []⟩)) :=
  ⟨rfl, by simp, by simp, by simp,
    (c1_remap_cases ⟨List.replicate 81 5, []⟩ ⟨List.range 366, []⟩ rfl).2.1
      (by simp) (by simp) (by simp)⟩

/-- Counterexample to C1 as frozen: the claim quantifies over every pair of
tensors, but on a 2-row current tensor and a 3-row pretrained tensor (the
pretrained leading dimension being the larger one) the code raises an
IndexError on the second table entry instead of returning the clone with
rows overwritten that the claim describes. -/
theorem c1_claim_false :
    (⟨[0, 0], []⟩ : Tensor Nat).rows.length <
      (⟨[0, 0, 0], []⟩ : Tensor Nat).rows.length ∧
    map_class_weights obj365_ids (⟨[0, 0], []⟩ : Tensor Nat) ⟨[0, 0, 0], []⟩ =
      .error () := by
  constructor
  · decide
  · decide

/-- Claim C2.  `_matched_state(T, S)` produces: a matched mapping holding
exactly the keys present in both mappings with identical shapes, each bound
to `S`'s tensor; a total and disjoint partition of `T`'s keys into matched,
missed (absent from `S`) and unmatched (present with a different shape); and
nothing for keys present only in `S`.  (The function is pure and
deterministic by construction in this embedding.) -/
theorem c2_matched_state_partition (T S : SMapT α)
    (hnd : (T.map Prod.fst).Nodup) (k : String) :
    (∀ w, findVal (matched_state T S).1 k = some w ↔
      ∃ v, findVal T k = some v ∧ findVal S k = some w ∧ tsize w = tsize v) ∧
    (∀ v, findVal T k = some v →
      ((k ∈ (matched_state T S).2.1 ∨ k ∈ (matched_state T S).2.2 ∨
          (findVal (matched_state T S).1 k).isSome) ∧
        ¬(k ∈ (matched_state T S).2.1 ∧ k ∈ (matched_state T S).2.2) ∧
        ¬(k ∈ (matched_state T S).2.1 ∧ (findVal (matched_state T S).1 k).isSome) ∧
        ¬(k ∈ (matched_state T S).2.2 ∧ (findVal (matched_state T S).1 k).isSome))) ∧
    (findVal T k = none →
      k ∉ (matched_state T S).2.1 ∧ k ∉ (matched_state T S).2.2 ∧
        findVal (matched_state T S).1 k = none) := by
  refine ⟨fun w => ms_matched_find T S k hnd w, ?_, ?_⟩
  · intro v hv
    have hmiss := ms_missed_mem T S k
    have hun := ms_un_mem T S k hnd
    have hsome : ∀ b, (findVal (matched_state T S).1 k).isSome = b ↔
        ((∃ w, findVal (matched_state T S).1 k = some w) ↔ b = true) := by
      intro b
      cases b <;> cases hfm : findVal (matched_state T S).1 k <;>
        simp [Option.isSome]
    cases hS : findVal S k with
    | none =>
      have hm : k ∈ (matched_state T S).2.1 := hmiss.2 ⟨⟨v, hv⟩, hS⟩
      have hu : k ∉ (matched_state T S).2.2 := by
        intro hk
        obtain ⟨w, hw⟩ := ms_un_params T S k hk
        rw [hS] at hw
        exact Option.noConfusion hw
      have hmt : ¬ (findVal (matched_state T S).1 k).isSome := by
        intro hk
        obtain ⟨w, hw⟩ := Option.isSome_iff_exists.1 hk
        obtain ⟨v', _, hw', _⟩ := (ms_matched_find T S k hnd w).1 hw
        rw [hS] at hw'
        exact Option.noConfusion hw'
      exact ⟨Or.inl hm, fun h => hu h.2, fun h => hmt h.2, fun h => hu h.1⟩
    | some w =>
      by_cases hts : tsize w = tsize v
      · have hmt : (findVal (matched_state T S).1 k).isSome := by
          rw [(ms_matched_find T S k hnd w).2 ⟨v, hv, hS, hts⟩]
          rfl
        have hm : k ∉ (matched_state T S).2.1 := by
          intro hk
          have := (hmiss.1 hk).2
          rw [hS] at this
          exact Option.noConfusion this
        have hu : k ∉ (matched_state T S).2.2 := by
          intro hk
          obtain ⟨v', w', hv', hw', hne⟩ := hun.1 hk
          rw [hv] at hv'
          cases hv'
          rw [hS] at hw'
          cases hw'
          exact hne hts
        exact ⟨Or.inr (Or.inr hmt), fun h => hm h.1, fun h => hm h.1,
          fun h => hu h.1⟩
      · have hu : k ∈ (matched_state T S).2.2 := hun.2 ⟨v, w, hv, hS, hts⟩
        have hm : k ∉ (matched_state T S).2.1 := by
          intro hk
          have := (hmiss.1 hk).2
          rw [hS] at this
          exact Option.noConfusion this
        have hmt : ¬ (findVal (matched_state T S).1 k).isSome := by
          intro hk
          obtain ⟨w', hw⟩ := Option.isSome_iff_exists.1 hk
          obtain ⟨v', hv', hw', hts'⟩ := (ms_matched_find T S k hnd w').1 hw
          rw [hv] at hv'
          cases hv'
          rw [hS] at hw'
          cases hw'
          exact hts hts'
        exact ⟨Or.inr (Or.inl hu), fun h => hm h.1, fun h => hm h.1,
          fun h => hmt h.2⟩
  · intro hT
    refine ⟨?_, ?_, ?_⟩
    · intro hk
      obtain ⟨⟨v, hv⟩, _⟩ := (ms_missed_mem T S k).1 hk
      rw [hT] at hv
      exact Option.noConfusion hv
    · intro hk
      obtain ⟨v, hv⟩ := ms_un_state T S k hk
      rw [hT] at hv
      exact Option.noConfusion hv
    · cases hfm : findVal (matched_state T S).1 k with
      | none => rfl
      | some w =>
        obtain ⟨v, hv, _, _⟩ := (ms_matched_find T S k hnd w).1 hfm
        rw [hT] at hv
        exact Option.noConfusion hv

/-- Witness for C2 at a concrete pair of mappings and key: one key matched,
one missed, one unmatched. -/
theorem c2_matched_state_partition_witness :
    (([("a", (⟨[0], []⟩ : Tensor Nat)), ("b", ⟨[1], []⟩), ("c", ⟨[2], []⟩)].map
        Prod.fst).Nodup) ∧
    findVal [("a", (⟨[0], []⟩ : Tensor Nat)), ("b", ⟨[1], []⟩), ("c", ⟨[2], []⟩)]
      "b" = some ⟨[1], []⟩ ∧
    ("b" ∈ (matched_state
        [("a", (⟨[0], []⟩ : Tensor Nat)), ("b", ⟨[1], []⟩), ("c", ⟨[2], []⟩)]
        [("a", ⟨[0, 1], []⟩), ("b", ⟨[7], []⟩)]).2.1 ∨
      "b" ∈ (matched_state
        [("a", (⟨[0], []⟩ : Tensor Nat)), ("b", ⟨[1], []⟩), ("c", ⟨[2], []⟩)]
        [("a", ⟨[0, 1], []⟩), ("b", ⟨[7], []⟩)]).2.2 ∨
      (findVal (matched_state
        [("a", (⟨[0], []⟩ : Tensor Nat)), ("b", ⟨[1], []⟩), ("c", ⟨[2], []⟩)]
        [("a", ⟨[0, 1], []⟩), ("b", ⟨[7], []⟩)]).1 "b").isSome) :=
  ⟨by decide, by decide,
    ((c2_matched_state_partition
      [("a", (⟨[0], []⟩ : Tensor Nat)), ("b", ⟨[1], []⟩), ("c", ⟨[2], []⟩)]
      [("a", ⟨[0, 1], []⟩), ("b", ⟨[7], []⟩)] (by decide) "b").2.1
      ⟨[1], []⟩ (by decide)).1⟩

/-- Claim C3 (amended).  When any error is raised during head adjustment,
`load_tuning_state` does not abort: it falls back to matching the current
parameters against the pretrained mapping in the state the in-place partial
adjustment left it — entries already deleted or overwritten by the partial
adjustment stay deleted or overwritten — and the tuning load completes. -/
theorem c3_fallback_uses_mutated (ids : List Nat) (cur pre p : SMapT α)
    (h : adjustHead ids cur pre = .error p) :
    load_tuning_core ids cur pre = matched_state cur p := by
  rw [load_tuning_core, h]

/-- Witness for C3 at a concrete failing input (denoising key absent from
the pretrained mapping, so the adjustment raises KeyError before mutating
anything). -/
theorem c3_fallback_uses_mutated_witness :
    adjustHead obj365_ids ([(dnKey, (⟨[0], []⟩ : Tensor Nat))] : SMapT Nat) [] =
      .error [] ∧
    load_tuning_core obj365_ids ([(dnKey, (⟨[0], []⟩ : Tensor Nat))] : SMapT Nat)
        [] =
      matched_state [(dnKey, (⟨[0], []⟩ : Tensor Nat))] [] :=
  ⟨by decide,
    c3_fallback_uses_mutated obj365_ids [(dnKey, ⟨[0], []⟩)] [] [] (by decide)⟩

/-- Counterexample to C3 as frozen: the claim says the fallback matches the
pretrained mapping exactly as extracted, with no entry deleted by the
partial adjustment.  On this input the denoising key is deleted (shape
mismatch) before the encoder head remap raises, so the fallback sees the
mutated mapping: the denoising key lands in `missed`, while matching the
original mapping would put it in `unmatched`. -/
theorem c3_claim_false :
    load_tuning_core obj365_ids
        ([(dnKey, ⟨[0, 0], []⟩),
          ("decoder.enc_score_head.weight", ⟨[0, 0], []⟩)] : SMapT Nat)
        [(dnKey, ⟨[0, 0, 0], []⟩),
          ("decoder.enc_score_head.weight", ⟨[0, 0, 0], []⟩)] ≠
      matched_state
        [(dnKey, ⟨[0, 0], []⟩),
          ("decoder.enc_score_head.weight", ⟨[0, 0], []⟩)]
        [(dnKey, ⟨[0, 0, 0], []⟩),
          ("decoder.enc_score_head.weight", ⟨[0, 0, 0], []⟩)] ∧
    dnKey ∈ (load_tuning_core obj365_ids
        ([(dnKey, ⟨[0, 0], []⟩),
          ("decoder.enc_score_head.weight", ⟨[0, 0], []⟩)] : SMapT Nat)
        [(dnKey, ⟨[0, 0, 0], []⟩),
          ("decoder.enc_score_head.weight", ⟨[0, 0, 0], []⟩)]).2.1 ∧
    dnKey ∈ (matched_state
        [(dnKey, (⟨[0, 0], []⟩ : Tensor Nat)),
          ("decoder.enc_score_head.weight", ⟨[0, 0], []⟩)]
        [(dnKey, ⟨[0, 0, 0], []⟩),
          ("decoder.enc_score_head.weight", ⟨[0, 0, 0], []⟩)]).2.2 := by
  refine ⟨by decide, by decide, by decide⟩

/-- Claim C4 (amended).  When a head parameter's shapes cannot be reconciled
the remap of that parameter fails with an index error rather than producing
a guessed tensor; but the failure is not contained to that parameter: the
error aborts the whole head adjustment — no diagnostic entry is recorded
and the remaining head parameters are not processed — and the orchestrator
falls back to matching against the pretrained mapping in the state the
partial adjustment left it (here unchanged, the first head parameter having
failed). -/
theorem c4_shape_error_aborts (ids : List Nat) (cur pre : SMapT α)
    (cT pT eC eP : Tensor α)
    (hpdn : findVal pre dnKey = some pT) (hcdn : findVal cur dnKey = some cT)
    (hsz : tsize pT = tsize cT)
    (hce : findVal cur "decoder.enc_score_head.weight" = some eC)
    (hpe : findVal pre "decoder.enc_score_head.weight" = some eP)
    (hm : map_class_weights ids eC eP = .error ()) :
    adjustHead ids cur pre = .error pre ∧
    load_tuning_core ids cur pre = matched_state cur pre := by
  have h1 : adjustHead ids cur pre = .error pre := by
    simp only [adjustHead, hpdn, hcdn, if_neg (not_not_intro hsz)]
    rw [headParamNames_cons]
    exact fold_head_error ids cur _ _ pre [] [] eC eP hce hpe hm
  exact ⟨h1, by rw [load_tuning_core, h1]⟩

/-- Witness for C4: a concrete current/pretrained pair whose encoder score
head weight cannot be remapped (2 rows against 3 rows). -/
theorem c4_shape_error_aborts_witness :
    findVal ([(dnKey, ⟨[9], []⟩),
        ("decoder.enc_score_head.weight", ⟨[0, 0, 0], []⟩)] : SMapT Nat) dnKey =
      some ⟨[9], []⟩ ∧
    findVal ([(dnKey, ⟨[7], []⟩),
        ("decoder.enc_score_head.weight", ⟨[0, 0], []⟩)] : SMapT Nat) dnKey =
      some ⟨[7], []⟩ ∧
    map_class_weights obj365_ids (⟨[0, 0], []⟩ : Tensor Nat) ⟨[0, 0, 0], []⟩ =
      .error () ∧
    adjustHead obj365_ids
        ([(dnKey, ⟨[7], []⟩),
          ("decoder.enc_score_head.weight", ⟨[0, 0], []⟩)] : SMapT Nat)
        [(dnKey, ⟨[9], []⟩),
          ("decoder.enc_score_head.weight", ⟨[0, 0, 0], []⟩)] =
      .error [(dnKey, ⟨[9], []⟩),
        ("decoder.enc_score_head.weight", ⟨[0, 0, 0], []⟩)] :=
  ⟨by decide, by decide, by decide,
    (c4_shape_error_aborts obj365_ids
      [(dnKey, ⟨[7], []⟩), ("decoder.enc_score_head.weight", ⟨[0, 0], []⟩)]
      [(dnKey, ⟨[9], []⟩), ("decoder.enc_score_head.weight", ⟨[0, 0, 0], []⟩)]
      ⟨[7], []⟩ ⟨[9], []⟩ ⟨[0, 0], []⟩ ⟨[0, 0, 0], []⟩
      (by decide) (by decide) (by decide) (by decide) (by decide) (by decide)).1⟩

set_option maxRecDepth 4000 in
/-- Counterexample to C4 as frozen: the claim says the orchestrator leaves
the one irreconcilable parameter out, records a diagnostic entry for it and
continues with the remaining head parameters.  On this input the encoder
head weight fails, and the whole adjustment aborts with the pretrained
mapping unadjusted: the compatible decoder head parameter that follows is
never remapped (it stays at its 330-row pretrained shape and falls into the
unmatched list instead of being transplanted). -/
theorem c4_claim_false :
    adjustHead obj365_ids
        ([(dnKey, ⟨[9], []⟩),
          ("decoder.enc_score_head.weight", ⟨[0, 0], []⟩),
          ("decoder.dec_score_head.0.weight", ⟨List.replicate 80 9, []⟩)] :
            SMapT Nat)
        [(dnKey, ⟨[9], []⟩),
          ("decoder.enc_score_head.weight", ⟨[0, 0, 0], []⟩),
          ("decoder.dec_score_head.0.weight", ⟨List.range 330, []⟩)] =
      .error [(dnKey, ⟨[9], []⟩),
        ("decoder.enc_score_head.weight", ⟨[0, 0, 0], []⟩),
        ("decoder.dec_score_head.0.weight", ⟨List.range 330, []⟩)] ∧
    "decoder.dec_score_head.0.weight" ∈ (load_tuning_core obj365_ids
        ([(dnKey, ⟨[9], []⟩),
          ("decoder.enc_score_head.weight", ⟨[0, 0], []⟩),
          ("decoder.dec_score_head.0.weight", ⟨List.replicate 80 9, []⟩)] :
            SMapT Nat)
        [(dnKey, ⟨[9], []⟩),
          ("decoder.enc_score_head.weight", ⟨[0, 0, 0], []⟩),
          ("decoder.dec_score_head.0.weight", ⟨List.range 330, []⟩)]).2.2 := by
  constructor
  · decide
  · decide

/-- Claim C7.  When the denoising class-embedding key is present in both
mappings with differing shapes, the adjusted mapping produced by
`_adjust_head_parameters` does not contain it at all (on the success path,
and likewise in the mutated fallback payload), so in the tuning match the
key lands in the missed list and never in the unmatched list. -/
theorem c7_denoising_drop (ids : List Nat) (cur pre : SMapT α) (cT pT : Tensor α)
    (hcdn : findVal cur dnKey = some cT) (hpdn : findVal pre dnKey = some pT)
    (hne : tsize pT ≠ tsize cT) :
    (∀ res, adjustHead ids cur pre = .ok res → findVal res.1 dnKey = none) ∧
    dnKey ∈ (load_tuning_core ids cur pre).2.1 ∧
    dnKey ∉ (load_tuning_core ids cur pre).2.2 := by
  have hk := adjustHead_keeps_dn_none ids cur pre cT pT hcdn hpdn hne
  refine ⟨hk.1, ?_⟩
  have hcore : ∃ q, load_tuning_core ids cur pre = matched_state cur q ∧
      findVal q dnKey = none := by
    cases ha : adjustHead ids cur pre with
    | ok res =>
      exact ⟨res.1, by rw [load_tuning_core, ha], hk.1 res ha⟩
    | error e =>
      exact ⟨e, by rw [load_tuning_core, ha], hk.2 e ha⟩
  obtain ⟨q, hq, hqnone⟩ := hcore
  rw [hq]
  constructor
  · exact (ms_missed_mem cur q dnKey).2 ⟨⟨cT, hcdn⟩, hqnone⟩
  · intro hmem
    obtain ⟨w, hw⟩ := ms_un_params cur q dnKey hmem
    rw [hqnone] at hw
    exact Option.noConfusion hw

/-- Witness for C7 at a concrete pair with a denoising shape mismatch. -/
theorem c7_denoising_drop_witness :
    findVal ([(dnKey, ⟨[1], []⟩)] : SMapT Nat) dnKey = some ⟨[1], []⟩ ∧
    findVal ([(dnKey, ⟨[1, 2], []⟩)] : SMapT Nat) dnKey = some ⟨[1, 2], []⟩ ∧
    tsize (⟨[1, 2], []⟩ : Tensor Nat) ≠ tsize (⟨[1], []⟩ : Tensor Nat) ∧
    dnKey ∈ (load_tuning_core obj365_ids ([(dnKey, ⟨[1], []⟩)] : SMapT Nat)
      [(dnKey, ⟨[1, 2], []⟩)]).2.1 :=
  ⟨by decide, by decide, by decide,
    (c7_denoising_drop obj365_ids [(dnKey, ⟨[1], []⟩)] [(dnKey, ⟨[1, 2], []⟩)]
      ⟨[1], []⟩ ⟨[1, 2], []⟩ (by decide) (by decide) (by decide)).2.1⟩

/-- Claim C9.  `map_class_weights` never returns Python `None`: whenever it
returns at all (does not raise), the value is a tensor; consequently the
size-mismatch diagnostic branch of `_adjust_head_parameters` (taken when the
remap result is `None`) is unreachable — on every successful adjustment the
list of parameters reported as "cannot adjust" is empty. -/
theorem c9_remap_never_none (ids : List Nat) :
    (∀ (cur pre : Tensor α) (r : Option (Tensor α)),
      map_class_weights ids cur pre = .ok r → ∃ t, r = some t) ∧
    (∀ (cur pre : SMapT α) (res : SMapT α × List String × List String),
      adjustHead ids cur pre = .ok res → res.2.2 = []) := by
  constructor
  · exact fun cur pre r h => mcw_not_none ids cur pre r h
  · intro cur pre res h
    cases hp : findVal pre dnKey with
    | none =>
      rw [adjustHead, hp] at h
      exact Except.noConfusion h
    | some pT =>
      cases hc : findVal cur dnKey with
      | none =>
        rw [adjustHead, hp, hc] at h
        exact Except.noConfusion h
      | some cT =>
        simp only [adjustHead, hp, hc] at h
        exact adjust_fold_diag ids cur headParamNames _ [] res h

/-- Witness for C9 at concrete inputs: a same-shape remap returning the
pretrained tensor, and a successful adjustment with an empty diagnostic
list. -/
theorem c9_remap_never_none_witness :
    (∃ t, some (⟨[3], []⟩ : Tensor Nat) = some t) ∧
    (([(dnKey, (⟨[3], []⟩ : Tensor Nat))], [], []) :
        SMapT Nat × List String × List String).2.2 = [] :=
  ⟨(c9_remap_never_none obj365_ids).1 ⟨[3], []⟩ ⟨[3], []⟩ (some ⟨[3], []⟩)
      (by decide),
    (c9_remap_never_none obj365_ids).2 [(dnKey, ⟨[3], []⟩)]
      [(dnKey, ⟨[3], []⟩)] ([(dnKey, ⟨[3], []⟩)], [], []) (by decide)⟩

/-- Claim C10.  A tuning checkpoint with neither an `ema` nor a `model`
entry makes `load_tuning_state` fail with the missing-key error before any
adjustment or matching, and the sub-blob selection is deterministic: the
EMA shadow's inner `module` mapping whenever an `ema` entry exists, the
plain `model` entry otherwise. -/
theorem c10_tuning_selection (ids : List Nat) (cur : SMapT α) (s : TuneCkpt α) :
    (s.ema = none → s.model = none →
      load_tuning_state ids cur s = .error ()) ∧
    (∀ m, s.ema = some m → selectPretrain s = .ok m) ∧
    (∀ m, s.ema = none → s.model = some m → selectPretrain s = .ok m) := by
  refine ⟨?_, ?_, ?_⟩
  · intro h1 h2
    simp only [load_tuning_state, selectPretrain, h1, h2]
  · intro m h
    simp only [selectPretrain, h]
  · intro m h1 h2
    simp only [selectPretrain, h1, h2]

/-- Witness for C10 at concrete checkpoints: the empty checkpoint is fatal,
an `ema` entry wins over a `model` entry, and a `model`-only checkpoint
selects the model entry. -/
theorem c10_tuning_selection_witness :
    (⟨none, none⟩ : TuneCkpt Nat).ema = none ∧
    (⟨none, none⟩ : TuneCkpt Nat).model = none ∧
    load_tuning_state obj365_ids ([] : SMapT Nat) ⟨none, none⟩ = .error () ∧
    selectPretrain (⟨some [(dnKey, ⟨[1], []⟩)], some []⟩ : TuneCkpt Nat) =
      .ok [(dnKey, ⟨[1], []⟩)] ∧
    selectPretrain (⟨none, some [(dnKey, ⟨[2], []⟩)]⟩ : TuneCkpt Nat) =
      .ok [(dnKey, ⟨[2], []⟩)] :=
  ⟨rfl, rfl,
    (c10_tuning_selection obj365_ids [] ⟨none, none⟩).1 rfl rfl,
    (c10_tuning_selection obj365_ids [] ⟨some [(dnKey, ⟨[1], []⟩)], some []⟩).2.1
      [(dnKey, ⟨[1], []⟩)] rfl,
    (c10_tuning_selection obj365_ids []
      ⟨none, some [(dnKey, ⟨[2], []⟩)]⟩).2.2 [(dnKey, ⟨[2], []⟩)] rfl rfl⟩

theorem specExpand_length [Inhabited α] (ids : List Nat) (cur pre : Tensor α) :
    (specExpand ids cur pre).rows.length = cur.rows.length := by
  simp [specExpand]

theorem specContract_length [Inhabited α] (ids : List Nat) (cur pre : Tensor α) :
    (specContract ids cur pre).rows.length = cur.rows.length := by
  simp [specContract]

theorem find_enumIds (l : List Nat) (start i o : Nat) (hnd : l.Nodup)
    (h : l[i]? = some o) :
    (enumIds l start).find? (fun p => decide (p.2 + 1 = o + 1)) =
      some (start + i, o) := by
  induction l generalizing start i with
  | nil => simp at h
  | cons a as ih =>
    rw [List.nodup_cons] at hnd
    cases i with
    | zero =>
      simp at h
      subst h
      simp [enumIds, List.find?]
    | succ j =>
      simp at h
      have hmem : o ∈ as := List.getElem?_mem h
      have hao : a ≠ o := fun he => hnd.1 (he ▸ hmem)
      have hpred : ¬ ((fun p : Nat × Nat => decide (p.2 + 1 = o + 1)) (start, a) = true) := by
        simp
        omega
      rw [show enumIds (a :: as) start = (start, a) :: enumIds as (start + 1) from rfl]
      rw [List.find?_cons_of_neg (enumIds as (start + 1)) hpred]
      rw [ih (start + 1) j hnd.2 h]
      congr 1
      simp
      omega

/-- Claim C6.  Round-trip through the fixed table: expanding a compact
80-row tensor `C` into an (at least 330-row) superset base `S` (placing
`C[c]` at row `table[c] + 1`, all other rows kept from `S`) and then
contracting the expanded tensor onto any 80-row target reproduces `C`'s
rows exactly. -/
theorem c6_roundtrip [Inhabited α] (C S T : Tensor α)
    (hCS : C.restShape = S.restShape) (hTS : T.restShape = S.restShape)
    (hC : C.rows.length = 80) (hS : 330 ≤ S.rows.length)
    (hT : T.rows.length = 80) :
    map_class_weights obj365_ids S C = .ok (some (specExpand obj365_ids S C)) ∧
    map_class_weights obj365_ids T (specExpand obj365_ids S C) =
      .ok (some (specContract obj365_ids T (specExpand obj365_ids S C))) ∧
    (specContract obj365_ids T (specExpand obj365_ids S C)).rows = C.rows := by
  have hids_len : obj365_ids.length = 80 := obj365_ids_length
  have hexp : map_class_weights obj365_ids S C =
      .ok (some (specExpand obj365_ids S C)) := by
    refine mcw_expand obj365_ids S C hCS obj365_ids_nodup ?_ ?_ (by omega)
    · intro o ho
      have := obj365_ids_bound o ho
      omega
    · omega
  have hElen : (specExpand obj365_ids S C).rows.length = S.rows.length :=
    specExpand_length obj365_ids S C
  have hErest : (specExpand obj365_ids S C).restShape = T.restShape := by
    rw [specExpand, hTS]
  have hcon : map_class_weights obj365_ids T (specExpand obj365_ids S C) =
      .ok (some (specContract obj365_ids T (specExpand obj365_ids S C))) := by
    refine mcw_contract obj365_ids T (specExpand obj365_ids S C) hErest ?_ ?_ ?_
    · intro o ho
      have := obj365_ids_bound o ho
      omega
    · omega
    · omega
  refine ⟨hexp, hcon, ?_⟩
  apply List.ext_getElem?
  intro i
  by_cases hi : i < 80
  · have hiT : i < T.rows.length := by omega
    have hiC : i < C.rows.length := by omega
    have hgi : obj365_ids[i]? = some (obj365_ids.getD i 0) := by
      rw [List.getD_eq_getElem?_getD]
      rw [List.getElem?_eq_getElem (by omega)]
      rfl
    have hmemids : obj365_ids.getD i 0 ∈ obj365_ids :=
      List.getElem?_mem hgi
    have hbound := obj365_ids_bound _ hmemids
    have hti : obj365_ids.getD i 0 + 1 < S.rows.length := by omega
    have hE : (specExpand obj365_ids S C).rows[obj365_ids.getD i 0 + 1]? =
        some (C.rows.getD i default) := by
      rw [specExpand]
      simp only
      rw [List.getElem?_map]
      rw [List.getElem?_range hti]
      rw [Option.map_some']
      rw [find_enumIds obj365_ids 0 i (obj365_ids.getD i 0) obj365_ids_nodup hgi]
      simp
    have hL : (specContract obj365_ids T (specExpand obj365_ids S C)).rows[i]? =
        some (C.rows.getD i default) := by
      rw [specContract]
      simp only
      rw [List.getElem?_map]
      rw [List.getElem?_range hiT]
      rw [Option.map_some']
      rw [if_pos (by omega : i < obj365_ids.length)]
      rw [List.getD_eq_getElem?_getD, hE]
      rfl
    rw [hL]
    rw [List.getElem?_eq_getElem hiC]
    congr 1
    simp [List.getD_eq_getElem?_getD, List.getElem?_eq_getElem hiC]
  · rw [List.getElem?_eq_none, List.getElem?_eq_none]
    · omega
    · rw [specContract_length]
      omega

set_option maxRecDepth 4000 in
/-- Witness for C6 at concrete tensors: `C` the 80 first naturals, `S` a
366-row constant base, `T` an 80-row constant target. -/
theorem c6_roundtrip_witness :
    ((⟨List.range 80, []⟩ : Tensor Nat).restShape =
      (⟨List.replicate 366 7, []⟩ : Tensor Nat).restShape) ∧
    ((⟨List.replicate 80 3, []⟩ : Tensor Nat).restShape =
      (⟨List.replicate 366 7, []⟩ : Tensor Nat).restShape) ∧
    (⟨List.range 80, []⟩ : Tensor Nat).rows.length = 80 ∧
    330 ≤ (⟨List.replicate 366 7, []⟩ : Tensor Nat).rows.length ∧
    (⟨List.replicate 80 3, []⟩ : Tensor Nat).rows.length = 80 ∧
    (specContract obj365_ids (⟨List.replicate 80 3, []⟩ : Tensor Nat)
      (specExpand obj365_ids ⟨List.replicate 366 7, []⟩ ⟨List.range 80, []⟩)).rows =
      (⟨List.range 80, []⟩ : Tensor Nat).rows :=
  ⟨rfl, rfl, by simp, by simp, by simp,
    (c6_roundtrip ⟨List.range 80, []⟩ ⟨List.replicate 366 7, []⟩
      ⟨List.replicate 80 3, []⟩ rfl rfl (by simp) (by simp) (by simp)).2.2⟩

theorem adjustStep_ok (ids : List Nat) (cur p : SMapT α) (adj diag : List String)
    (n : String) (cT pT t : Tensor α)
    (hc : findVal cur n = some cT) (hp : findVal p n = some pT)
    (hm : map_class_weights ids cT pT = .ok (some t)) :
    adjustStep ids cur (.ok (p, adj, diag)) n =
      .ok (insertVal p n t, adj ++ [n], diag) := by
  simp only [adjustStep, hc, hp, hm]

theorem adjust_fold_skip_all (ids : List Nat) (cur : SMapT α) (names : List String)
    (h : ∀ n ∈ names, findVal cur n = none) (p : SMapT α) (a d : List String) :
    names.foldl (adjustStep ids cur) (.ok (p, a, d)) = .ok (p, a, d) := by
  induction names with
  | nil => rfl
  | cons n rest ih =>
    rw [List.foldl_cons]
    have hn : findVal cur n = none := h n (List.mem_cons_self n rest)
    simp only [adjustStep, hn]
    exact ih (fun m hm => h m (List.mem_cons_of_mem n hm))

theorem specContract_tsize [Inhabited α] (ids : List Nat) (cur pre : Tensor α) :
    tsize (specContract ids cur pre) = tsize cur := by
  simp [tsize, specContract]

theorem specContract_row_lt [Inhabited α] (ids : List Nat) (cur pre : Tensor α)
    (c : Nat) (hc : c < ids.length) (hcur : c < cur.rows.length) :
    (specContract ids cur pre).rows[c]? =
      some (pre.rows.getD (ids.getD c 0 + 1) default) := by
  rw [specContract]
  simp only
  rw [List.getElem?_map]
  rw [List.getElem?_range hcur]
  rw [Option.map_some']
  rw [if_pos hc]

theorem specContract_row_ge [Inhabited α] (ids : List Nat) (cur pre : Tensor α)
    (c : Nat) (hc : ¬ c < ids.length) (hcur : c < cur.rows.length) :
    (specContract ids cur pre).rows[c]? = some (cur.rows.getD c default) := by
  rw [specContract]
  simp only
  rw [List.getElem?_map]
  rw [List.getElem?_range hcur]
  rw [Option.map_some']
  rw [if_neg hc]

theorem c5_load_eq [Inhabited α] (cw cb d pw pb d' : Tensor α)
    (hdn : tsize d' = tsize d)
    (hcw : cw.rows.length = 81) (hpw : pw.rows.length = 366)
    (hshW : pw.restShape = cw.restShape)
    (hcb : cb.rows.length = 81) (hpb : pb.rows.length = 366)
    (hshB : pb.restShape = cb.restShape) :
    load_tuning_state obj365_ids
        [("decoder.enc_score_head.weight", cw),
          ("decoder.enc_score_head.bias", cb), (dnKey, d)]
        ⟨none, some [("decoder.enc_score_head.weight", pw),
          ("decoder.enc_score_head.bias", pb), (dnKey, d')]⟩ =
      .ok ([("decoder.enc_score_head.weight", specContract obj365_ids cw pw),
        ("decoder.enc_score_head.bias", specContract obj365_ids cb pb),
        (dnKey, d')], [], []) := by
  have hA : map_class_weights obj365_ids cw pw =
      .ok (some (specContract obj365_ids cw pw)) := by
    refine mcw_contract obj365_ids cw pw hshW ?_ ?_ (by omega)
    · intro o ho
      have := obj365_ids_bound o ho
      omega
    · rw [obj365_ids_length]
      omega
  have hB : map_class_weights obj365_ids cb pb =
      .ok (some (specContract obj365_ids cb pb)) := by
    refine mcw_contract obj365_ids cb pb hshB ?_ ?_ (by omega)
    · intro o ho
      have := obj365_ids_bound o ho
      omega
    · rw [obj365_ids_length]
      omega
  have h0 : adjustHead obj365_ids
      [("decoder.enc_score_head.weight", cw),
        ("decoder.enc_score_head.bias", cb), (dnKey, d)]
      [("decoder.enc_score_head.weight", pw),
        ("decoder.enc_score_head.bias", pb), (dnKey, d')] =
      headParamNames.foldl (adjustStep obj365_ids
        [("decoder.enc_score_head.weight", cw),
          ("decoder.enc_score_head.bias", cb), (dnKey, d)])
        (.ok ([("decoder.enc_score_head.weight", pw),
          ("decoder.enc_score_head.bias", pb), (dnKey, d')], [], [])) := by
    simp only [adjustHead,
      show findVal [("decoder.enc_score_head.weight", pw),
        ("decoder.enc_score_head.bias", pb), (dnKey, d')] dnKey = some d' from rfl,
      show findVal [("decoder.enc_score_head.weight", cw),
        ("decoder.enc_score_head.bias", cb), (dnKey, d)] dnKey = some d from rfl,
      if_neg (not_not_intro hdn)]
  have hskip : ∀ n ∈ headParamNames.tail.tail,
      findVal [("decoder.enc_score_head.weight", cw),
        ("decoder.enc_score_head.bias", cb), (dnKey, d)] n = none := by
    intro n hn
    fin_cases hn <;> rfl
  have h1 : headParamNames.foldl (adjustStep obj365_ids
      [("decoder.enc_score_head.weight", cw),
        ("decoder.enc_score_head.bias", cb), (dnKey, d)])
      (.ok ([("decoder.enc_score_head.weight", pw),
        ("decoder.enc_score_head.bias", pb), (dnKey, d')], [], [])) =
      .ok ([("decoder.enc_score_head.weight", specContract obj365_ids cw pw),
        ("decoder.enc_score_head.bias", specContract obj365_ids cb pb),
        (dnKey, d')],
        ["decoder.enc_score_head.weight", "decoder.enc_score_head.bias"], []) := by
    rw [show headParamNames = "decoder.enc_score_head.weight" ::
      "decoder.enc_score_head.bias" :: headParamNames.tail.tail from rfl]
    rw [List.foldl_cons]
    rw [adjustStep_ok obj365_ids
      [("decoder.enc_score_head.weight", cw),
        ("decoder.enc_score_head.bias", cb), (dnKey, d)]
      [("decoder.enc_score_head.weight", pw),
        ("decoder.enc_score_head.bias", pb), (dnKey, d')] [] []
      "decoder.enc_score_head.weight"
      cw pw (specContract obj365_ids cw pw) rfl rfl hA]
    rw [List.foldl_cons]
    rw [adjustStep_ok obj365_ids
      [("decoder.enc_score_head.weight", cw),
        ("decoder.enc_score_head.bias", cb), (dnKey, d)]
      (insertVal [("decoder.enc_score_head.weight", pw),
        ("decoder.enc_score_head.bias", pb), (dnKey, d')]
        "decoder.enc_score_head.weight" (specContract obj365_ids cw pw))
      ([] ++ ["decoder.enc_score_head.weight"]) []
      "decoder.enc_score_head.bias" cb pb (specContract obj365_ids cb pb) rfl rfl hB]
    rw [adjust_fold_skip_all obj365_ids
      [("decoder.enc_score_head.weight", cw),
        ("decoder.enc_score_head.bias", cb), (dnKey, d)]
      headParamNames.tail.tail hskip _ _ _]
    rfl
  have hts1 : tsize (specContract obj365_ids cw pw) = tsize cw :=
    specContract_tsize obj365_ids cw pw
  have hts2 : tsize (specContract obj365_ids cb pb) = tsize cb :=
    specContract_tsize obj365_ids cb pb
  have h2 : matched_state
      [("decoder.enc_score_head.weight", cw),
        ("decoder.enc_score_head.bias", cb), (dnKey, d)]
      [("decoder.enc_score_head.weight", specContract obj365_ids cw pw),
        ("decoder.enc_score_head.bias", specContract obj365_ids cb pb),
        (dnKey, d')] =
      ([("decoder.enc_score_head.weight", specContract obj365_ids cw pw),
        ("decoder.enc_score_head.bias", specContract obj365_ids cb pb),
        (dnKey, d')], [], []) := by
    simp only [matched_state,
      show findVal [("decoder.enc_score_head.weight", specContract obj365_ids cw pw),
        ("decoder.enc_score_head.bias", specContract obj365_ids cb pb),
        (dnKey, d')] "decoder.enc_score_head.weight" =
          some (specContract obj365_ids cw pw) from rfl,
      show findVal [("decoder.enc_score_head.weight", specContract obj365_ids cw pw),
        ("decoder.enc_score_head.bias", specContract obj365_ids cb pb),
        (dnKey, d')] "decoder.enc_score_head.bias" =
          some (specContract obj365_ids cb pb) from rfl,
      show findVal [("decoder.enc_score_head.weight", specContract obj365_ids cw pw),
        ("decoder.enc_score_head.bias", specContract obj365_ids cb pb),
        (dnKey, d')] dnKey = some d' from rfl,
      if_pos hts1, if_pos hts2, if_pos hdn]
  have hAH : adjustHead obj365_ids
      [("decoder.enc_score_head.weight", cw),
        ("decoder.enc_score_head.bias", cb), (dnKey, d)]
      [("decoder.enc_score_head.weight", pw),
        ("decoder.enc_score_head.bias", pb), (dnKey, d')] =
      .ok ([("decoder.enc_score_head.weight", specContract obj365_ids cw pw),
        ("decoder.enc_score_head.bias", specContract obj365_ids cb pb),
        (dnKey, d')],
        ["decoder.enc_score_head.weight", "decoder.enc_score_head.bias"], []) :=
    h0.trans h1
  have hcore : load_tuning_core obj365_ids
      [("decoder.enc_score_head.weight", cw),
        ("decoder.enc_score_head.bias", cb), (dnKey, d)]
      [("decoder.enc_score_head.weight", pw),
        ("decoder.enc_score_head.bias", pb), (dnKey, d')] =
      ([("decoder.enc_score_head.weight", specContract obj365_ids cw pw),
        ("decoder.enc_score_head.bias", specContract obj365_ids cb pb),
        (dnKey, d')], [], []) := by
    simp only [load_tuning_core, hAH, h2]
  simp only [load_tuning_state, selectPretrain, hcore]
  rfl

theorem contract_rows_final [Inhabited α] (cur pre : Tensor α)
    (hcur : cur.rows.length = 81) (hpre : pre.rows.length = 366) :
    (∀ c, c < 80 → (specContract obj365_ids cur pre).rows[c]? =
      pre.rows[obj365_ids.getD c 0 + 1]?) ∧
    (specContract obj365_ids cur pre).rows[80]? = cur.rows[80]? := by
  constructor
  · intro c hc
    have hlt : c < obj365_ids.length := by
      rw [obj365_ids_length]
      omega
    have hgi : obj365_ids[c]? = some (obj365_ids.getD c 0) := by
      rw [List.getD_eq_getElem?_getD]
      rw [List.getElem?_eq_getElem hlt]
      rfl
    have hmem : obj365_ids.getD c 0 ∈ obj365_ids := List.getElem?_mem hgi
    have hb := obj365_ids_bound _ hmem
    rw [specContract_row_lt obj365_ids cur pre c hlt (by omega)]
    rw [List.getElem?_eq_getElem (show obj365_ids.getD c 0 + 1 < pre.rows.length by omega)]
    congr 1
    rw [List.getD_eq_getElem?_getD]
    rw [List.getElem?_eq_getElem (show obj365_ids.getD c 0 + 1 < pre.rows.length by omega)]
    rfl
  · rw [specContract_row_ge obj365_ids cur pre 80
      (by rw [obj365_ids_length]; omega) (by omega)]
    rw [List.getElem?_eq_getElem (show (80 : Nat) < cur.rows.length by omega)]
    congr 1
    rw [List.getD_eq_getElem?_getD]
    rw [List.getElem?_eq_getElem (show (80 : Nat) < cur.rows.length by omega)]
    rfl

/-- Claim C5 (amended).  In the end-to-end tuning scenario (current model
with 81-row encoder score head weight and bias, pretrained checkpoint with
366-row versions, denoising embedding shape-compatible), the tuning load
succeeds, both head tensors are transplanted, and for every `c < 80` the
resulting row `c` equals the pretrained row `table[c] + 1`; the row that
retains its pre-load (initialized) value is row 80 of the 81-row result,
not row 0 — row 0 receives pretrained row `table[0] + 1 = 1`. -/
theorem c5_end_to_end [Inhabited α] (cw cb d pw pb d' : Tensor α)
    (hdn : tsize d' = tsize d)
    (hcw : cw.rows.length = 81) (hpw : pw.rows.length = 366)
    (hshW : pw.restShape = cw.restShape)
    (hcb : cb.rows.length = 81) (hpb : pb.rows.length = 366)
    (hshB : pb.restShape = cb.restShape) :
    ∃ fw fb,
      load_tuning_state obj365_ids
          [("decoder.enc_score_head.weight", cw),
            ("decoder.enc_score_head.bias", cb), (dnKey, d)]
          ⟨none, some [("decoder.enc_score_head.weight", pw),
            ("decoder.enc_score_head.bias", pb), (dnKey, d')]⟩ =
        .ok ([("decoder.enc_score_head.weight", fw),
          ("decoder.enc_score_head.bias", fb), (dnKey, d')], [], []) ∧
      (∀ c, c < 80 → fw.rows[c]? = pw.rows[obj365_ids.getD c 0 + 1]?) ∧
      fw.rows[80]? = cw.rows[80]? ∧
      (∀ c, c < 80 → fb.rows[c]? = pb.rows[obj365_ids.getD c 0 + 1]?) ∧
      fb.rows[80]? = cb.rows[80]? := by
  refine ⟨specContract obj365_ids cw pw, specContract obj365_ids cb pb,
    c5_load_eq cw cb d pw pb d' hdn hcw hpw hshW hcb hpb hshB, ?_, ?_, ?_, ?_⟩
  · exact (contract_rows_final cw pw hcw hpw).1
  · exact (contract_rows_final cw pw hcw hpw).2
  · exact (contract_rows_final cb pb hcb hpb).1
  · exact (contract_rows_final cb pb hcb hpb).2

set_option maxRecDepth 4000 in
/-- Witness for C5 at concrete tensors: 81-row current weight/bias
initialized to 1000, 366-row pretrained tensors. -/
theorem c5_end_to_end_witness :
    tsize (⟨[6], []⟩ : Tensor Nat) = tsize (⟨[6], []⟩ : Tensor Nat) ∧
    (⟨List.replicate 81 1000, []⟩ : Tensor Nat).rows.length = 81 ∧
    (⟨List.range 366, []⟩ : Tensor Nat).rows.length = 366 ∧
    (⟨List.replicate 366 2, []⟩ : Tensor Nat).rows.length = 366 ∧
    (∃ fw fb,
      load_tuning_state obj365_ids
          [("decoder.enc_score_head.weight",
              (⟨List.replicate 81 1000, []⟩ : Tensor Nat)),
            ("decoder.enc_score_head.bias", ⟨List.replicate 81 1000, []⟩),
            (dnKey, ⟨[6], []⟩)]
          ⟨none, some [("decoder.enc_score_head.weight", ⟨List.range 366, []⟩),
            ("decoder.enc_score_head.bias", ⟨List.replicate 366 2, []⟩),
            (dnKey, ⟨[6], []⟩)]⟩ =
        .ok ([("decoder.enc_score_head.weight", fw),
          ("decoder.enc_score_head.bias", fb), (dnKey, ⟨[6], []⟩)], [], []) ∧
      (∀ c, c < 80 → fw.rows[c]? =
        (⟨List.range 366, []⟩ : Tensor Nat).rows[obj365_ids.getD c 0 + 1]?) ∧
      fw.rows[80]? = (⟨List.replicate 81 1000, []⟩ : Tensor Nat).rows[80]? ∧
      (∀ c, c < 80 → fb.rows[c]? =
        (⟨List.replicate 366 2, []⟩ : Tensor Nat).rows[obj365_ids.getD c 0 + 1]?) ∧
      fb.rows[80]? = (⟨List.replicate 81 1000, []⟩ : Tensor Nat).rows[80]?) :=
  ⟨rfl, by simp, by simp, by simp,
    c5_end_to_end ⟨List.replicate 81 1000, []⟩ ⟨List.replicate 81 1000, []⟩
      ⟨[6], []⟩ ⟨List.range 366, []⟩ ⟨List.replicate 366 2, []⟩ ⟨[6], []⟩
      rfl (by simp) (by simp) rfl (by simp) (by simp) rfl⟩

set_option maxRecDepth 8000 in
/-- Counterexample to C5 as frozen: in the end-to-end scenario the claim
says row 0 of the resulting 81-row tensor retains its pre-load value.  With
the weight initialized to 1000 everywhere and the pretrained rows equal to
their own indices, the tuning load rewrites row 0 to pretrained row
`table[0] + 1 = 1`, i.e. the value 1, not 1000; the row that retains the
initialized value is row 80. -/
theorem c5_claim_false :
    load_tuning_state obj365_ids
        [("decoder.enc_score_head.weight",
            (⟨List.replicate 81 1000, []⟩ : Tensor Nat)),
          ("decoder.enc_score_head.bias", ⟨List.replicate 81 1000, []⟩),
          (dnKey, ⟨[6], []⟩)]
        ⟨none, some [("decoder.enc_score_head.weight", ⟨List.range 366, []⟩),
          ("decoder.enc_score_head.bias", ⟨List.replicate 366 2, []⟩),
          (dnKey, ⟨[6], []⟩)]⟩ =
      .ok ([("decoder.enc_score_head.weight",
          ⟨(List.range 80).map (fun c => obj365_ids.getD c 0 + 1) ++ [1000], []⟩),
        ("decoder.enc_score_head.bias",
          ⟨List.replicate 80 2 ++ [1000], []⟩),
        (dnKey, ⟨[6], []⟩)], [], []) ∧
    (⟨(List.range 80).map (fun c => obj365_ids.getD c 0 + 1) ++ [1000], []⟩ :
      Tensor Nat).rows[0]? = some 1 ∧
    (1 : Nat) ≠ 1000 := by
  refine ⟨?_, by decide, by decide⟩
  decide

theorem restoreAttr_name (entries : List (String × Blob α)) (ctx : List (Attr α))
    (a : Attr α) : (restoreAttr entries ctx a).name = a.name := by
  rw [restoreAttr]
  by_cases hr : a.restorable
  · rw [if_pos hr]
    cases hf : findVal entries a.name with
    | some b => rfl
    | none =>
      by_cases he : a.name = "ema"
      · rw [if_pos he]
        cases hm : getModelMapping ctx with
        | some m => rfl
        | none => rfl
      · rw [if_neg he]
  · rw [if_neg hr]

theorem restoreAttr_untouched (entries : List (String × Blob α))
    (ctx : List (Attr α)) (a : Attr α) (hf : findVal entries a.name = none)
    (hne : a.name ≠ "ema") : restoreAttr entries ctx a = a := by
  rw [restoreAttr, hf]
  by_cases hr : a.restorable
  · rw [if_pos hr, if_neg hne]
  · rw [if_neg hr]

theorem restoreAttr_model_val (entries : List (String × Blob α))
    (ctx : List (Attr α)) (a : Attr α) (ha : a.name = "model") :
    restoreAttr entries ctx a =
      { a with state :=
          match (if a.restorable then findVal entries "model" else none) with
          | some b => b
          | none => a.state } := by
  obtain ⟨n, r, st⟩ := a
  simp only at ha
  subst ha
  cases r with
  | false => rfl
  | true =>
    cases hf : findVal entries "model" with
    | some b =>
      simp only [restoreAttr, hf]
      simp
    | none =>
      simp only [restoreAttr, hf]
      rw [if_neg (by decide : ¬ ("model" : String) = "ema")]
      simp

theorem lsdLoop_prefix_stable (entries : List (String × Blob α)) :
    ∀ (todo done : List (Attr α)) (i : Nat), i < done.length →
      (lsdLoop entries done todo)[i]? = done[i]? := by
  intro todo
  induction todo with
  | nil =>
    intro done i _
    rfl
  | cons a rest ih =>
    intro done i hi
    rw [lsdLoop]
    rw [ih (done ++ [restoreAttr entries (done ++ a :: rest) a]) i
      (by rw [List.length_append]; omega)]
    rw [List.getElem?_append]
    rw [if_pos hi]

theorem lsdLoop_process_at (entries : List (String × Blob α)) :
    ∀ (jj : Nat) (todo done : List (Attr α)) (a : Attr α),
      todo[jj]? = some a →
      ∃ pref : List (Attr α),
        pref.length = jj ∧
        pref.map Attr.name = (todo.take jj).map Attr.name ∧
        (∀ (ii : Nat) (b : Attr α), (todo.take jj)[ii]? = some b →
          ∃ ctx, pref[ii]? = some (restoreAttr entries ctx b)) ∧
        (lsdLoop entries done todo)[done.length + jj]? =
          some (restoreAttr entries (done ++ pref ++ todo.drop jj) a) := by
  intro jj
  induction jj with
  | zero =>
    intro todo done a ha
    cases todo with
    | nil => simp at ha
    | cons b rest =>
      have hba : b = a := by simpa using ha
      subst hba
      refine ⟨[], rfl, rfl, ?_, ?_⟩
      · intro ii c hc
        simp at hc
      · simp only [List.append_nil, List.nil_append, List.drop_zero, Nat.add_zero]
        rw [lsdLoop]
        rw [lsdLoop_prefix_stable entries rest
          (done ++ [restoreAttr entries (done ++ b :: rest) b]) done.length
          (by rw [List.length_append]; simp)]
        rw [List.getElem?_append_right (le_refl _)]
        simp
  | succ jj ih =>
    intro todo done a ha
    cases todo with
    | nil => simp at ha
    | cons b rest =>
      have ha' : rest[jj]? = some a := by simpa using ha
      obtain ⟨pref', hlen, hnames, helem, hpos⟩ := ih rest
        (done ++ [restoreAttr entries (done ++ b :: rest) b]) a ha'
      refine ⟨restoreAttr entries (done ++ b :: rest) b :: pref', ?_, ?_, ?_, ?_⟩
      · simp [hlen]
      · rw [List.map_cons, hnames, restoreAttr_name]
        rfl
      · intro ii c hc
        cases ii with
        | zero =>
          have hcb : b = c := by simpa using hc
          subst hcb
          exact ⟨done ++ b :: rest, by simp⟩
        | succ ii' =>
          have hc' : (rest.take jj)[ii']? = some c := by simpa using hc
          obtain ⟨ctx, hctx⟩ := helem ii' c hc'
          exact ⟨ctx, by simpa using hctx⟩
      · rw [lsdLoop]
        have harith : done.length + (jj + 1) =
            (done ++ [restoreAttr entries (done ++ b :: rest) b]).length + jj := by
          rw [List.length_append]
          simp
          omega
        rw [harith, hpos]
        have hctxeq : (done ++ [restoreAttr entries (done ++ b :: rest) b]) ++
            pref' ++ rest.drop jj =
            done ++ (restoreAttr entries (done ++ b :: rest) b :: pref') ++
              (b :: rest).drop (jj + 1) := by
          simp
        rw [hctxeq]

theorem find?_of_getElem (p : γ → Bool) :
    ∀ (l : List γ) (k : Nat) (x : γ), l[k]? = some x → p x = true →
      (∀ ii y, ii < k → l[ii]? = some y → p y = false) →
      l.find? p = some x := by
  intro l
  induction l with
  | nil =>
    intro k x hx _ _
    simp at hx
  | cons a tail ih =>
    intro k x hx hpx hbefore
    cases k with
    | zero =>
      have hax : a = x := by simpa using hx
      subst hax
      exact List.find?_cons_of_pos tail hpx
    | succ k' =>
      have hpa : p a = false := hbefore 0 a (Nat.succ_pos k') (by simp)
      rw [List.find?_cons_of_neg tail (by rw [hpa]; exact Bool.false_ne_true)]
      exact ih k' x (by simpa using hx) hpx
        (fun ii y hii hy => hbefore (ii + 1) y (by omega) (by simpa using hy))

theorem names_eq_of_process (p : Pipeline α) (j : Nat)
    (pref : List (Attr α))
    (hnames : pref.map Attr.name = (p.attrs.take j).map Attr.name) :
    (pref ++ p.attrs.drop j).map Attr.name = p.attrs.map Attr.name := by
  rw [List.map_append, hnames, ← List.map_append, List.take_append_drop]

theorem ctx_before_not_model (p : Pipeline α) (j k : Nat) (aM : Attr α)
    (pref : List (Attr α))
    (hnames : pref.map Attr.name = (p.attrs.take j).map Attr.name)
    (hnd : (p.attrs.map Attr.name).Nodup)
    (hk : p.attrs[k]? = some aM) (hkm : aM.name = "model") :
    ∀ (ii : Nat) (y : Attr α), ii < k →
      (pref ++ p.attrs.drop j)[ii]? = some y →
      (y.name == "model") = false := by
  intro ii y hii hy
  have hN : (p.attrs.map Attr.name)[k]? = some "model" := by
    rw [List.getElem?_map, hk, Option.map_some', hkm]
  have hyN : (p.attrs.map Attr.name)[ii]? = some y.name := by
    rw [← names_eq_of_process p j pref hnames]
    rw [List.getElem?_map, hy, Option.map_some']
  by_cases hm : y.name = "model"
  · exfalso
    have hlt : ii < (p.attrs.map Attr.name).length := getElem?_lt_length hyN
    have : ii = k := by
      apply List.getElem?_inj hlt hnd
      rw [hyN, hN, hm]
    omega
  · exact beq_eq_false_iff_ne.2 hm

/-- Claim C8.  For every checkpoint lacking an `ema` entry, restored onto a
pipeline that has both a `model` attribute and a restorable EMA shadow
attribute (attribute names unique, as in a Python `__dict__`): the EMA
shadow is initialized from the live model's weights as they stand at the
moment the EMA attribute is processed — the checkpoint's own `model` entry
if the model attribute was already restored from it, the model's original
mapping otherwise — with any `module.` key prefix stripped and wrapped as a
single-entry sub-blob under `module`; this is the only component-specific
fallback: every other restorable attribute absent from the checkpoint is
left untouched; and `last_epoch` is restored independently of the
per-component loop whenever present. -/
theorem c8_ema_fallback (p : Pipeline α) (s : Ckpt α)
    (j k : Nat) (aE aM : Attr α) (mEma : List (String × α))
    (hnd : (p.attrs.map Attr.name).Nodup)
    (hEma : findVal s.entries "ema" = none)
    (hj : p.attrs[j]? = some aE) (hje : aE.name = "ema")
    (hjr : aE.restorable = true)
    (hk : p.attrs[k]? = some aM) (hkm : aM.name = "model")
    (hMstate :
      (if k < j then
        match (if aM.restorable then findVal s.entries "model" else none) with
        | some b => b
        | none => aM.state
      else aM.state) = .leaf mEma) :
    (load_state_dict p s).attrs[j]? =
      some { aE with state := .nest [("module", .leaf (stripModule mEma))] } ∧
    (∀ (i : Nat) (a : Attr α), p.attrs[i]? = some a → a.restorable = true →
      a.name ≠ "ema" → findVal s.entries a.name = none →
      (load_state_dict p s).attrs[i]? = some a) ∧
    (load_state_dict p s).lastEpoch =
      (match s.lastEpoch with
        | some e => e
        | none => p.lastEpoch) := by
  have hattrs : (load_state_dict p s).attrs = lsdLoop s.entries [] p.attrs := rfl
  refine ⟨?_, ?_, rfl⟩
  · obtain ⟨pref, hlen, hnames, helem, hpos⟩ :=
      lsdLoop_process_at s.entries j p.attrs [] aE hj
    have hpos' : (lsdLoop s.entries [] p.attrs)[j]? =
        some (restoreAttr s.entries (pref ++ p.attrs.drop j) aE) := by
      simpa using hpos
    rw [hattrs, hpos']
    have hbefore := ctx_before_not_model p j k aM pref hnames hnd hk hkm
    have hgm : getModelMapping (pref ++ p.attrs.drop j) = some mEma := by
      by_cases hkj : k < j
      · have htake : (p.attrs.take j)[k]? = some aM := by
          rw [List.getElem?_take, if_pos hkj]
          exact hk
        obtain ⟨ctx, hctx⟩ := helem k aM htake
        have hctx' : (pref ++ p.attrs.drop j)[k]? =
            some (restoreAttr s.entries ctx aM) := by
          rw [List.getElem?_append, if_pos (by omega : k < pref.length)]
          exact hctx
        have hval := restoreAttr_model_val s.entries ctx aM hkm
        have hfind : (pref ++ p.attrs.drop j).find?
            (fun x => x.name == "model") = some (restoreAttr s.entries ctx aM) := by
          apply find?_of_getElem _ _ k _ hctx' ?_ hbefore
          rw [restoreAttr_name, hkm]
          decide
        rw [getModelMapping, hfind, hval]
        have hM' : (match (if aM.restorable then findVal s.entries "model"
              else none) with
            | some b => b
            | none => aM.state) = Blob.leaf mEma := by
          rw [← hMstate, if_pos hkj]
        simp only [hM']
      · have hkd : (pref ++ p.attrs.drop j)[k]? = some aM := by
          rw [List.getElem?_append, if_neg (by omega : ¬ k < pref.length)]
          rw [List.getElem?_drop, hlen]
          rw [show j + (k - j) = k from by omega]
          exact hk
        have hfind : (pref ++ p.attrs.drop j).find?
            (fun x => x.name == "model") = some aM := by
          apply find?_of_getElem _ _ k _ hkd ?_ hbefore
          rw [hkm]
          decide
        rw [getModelMapping, hfind]
        have hM' : aM.state = Blob.leaf mEma := by
          rw [← hMstate, if_neg hkj]
        simp only [hM']
    simp [restoreAttr, hje, hEma, hjr, hgm]
  · intro i a hia har hane hanone
    obtain ⟨pref, hlen, hnames, helem, hpos⟩ :=
      lsdLoop_process_at s.entries i p.attrs [] a hia
    have hpos' : (lsdLoop s.entries [] p.attrs)[i]? =
        some (restoreAttr s.entries (pref ++ p.attrs.drop i) a) := by
      simpa using hpos
    rw [hattrs, hpos', restoreAttr_untouched s.entries _ a hanone hane]

/-- Witness for C8 at a concrete pipeline and a checkpoint that carries a
`model` entry (with a `module.`-prefixed key) but no `ema` entry: the model
is restored first, the EMA shadow is then initialized from the restored
model's mapping with the `module.` prefix stripped, the other restorable
component is untouched, and `last_epoch` is restored. -/
theorem c8_ema_fallback_witness :
    (([⟨"model", true, Blob.leaf [("module.w", (1 : Nat))]⟩,
        ⟨"ema", true, .leaf []⟩,
        ⟨"optimizer", true, .leaf [("o", 2)]⟩].map Attr.name).Nodup) ∧
    findVal [("model", Blob.leaf [("module.w", (9 : Nat))])] "ema" = none ∧
    (load_state_dict
        ⟨0, [⟨"model", true, .leaf [("module.w", 1)]⟩,
          ⟨"ema", true, .leaf []⟩,
          ⟨"optimizer", true, .leaf [("o", 2)]⟩]⟩
        ⟨some 5, [("model", Blob.leaf [("module.w", (9 : Nat))])]⟩).attrs[1]? =
      some ⟨"ema", true,
        .nest [("module", .leaf (stripModule [("module.w", 9)]))]⟩ ∧
    stripModule [("module.w", (9 : Nat))] = [("w", 9)] ∧
    (load_state_dict
        ⟨0, [⟨"model", true, .leaf [("module.w", (1 : Nat))]⟩,
          ⟨"ema", true, .leaf []⟩,
          ⟨"optimizer", true, .leaf [("o", 2)]⟩]⟩
        ⟨some 5, [("model", Blob.leaf [("module.w", 9)])]⟩).attrs[2]? =
      some ⟨"optimizer", true, .leaf [("o", 2)]⟩ ∧
    (load_state_dict
        ⟨0, [⟨"model", true, .leaf [("module.w", (1 : Nat))]⟩,
          ⟨"ema", true, .leaf []⟩,
          ⟨"optimizer", true, .leaf [("o", 2)]⟩]⟩
        ⟨some 5, [("model", Blob.leaf [("module.w", 9)])]⟩).lastEpoch = 5 := by
  have h := c8_ema_fallback
    ⟨0, [⟨"model", true, .leaf [("module.w", (1 : Nat))]⟩,
      ⟨"ema", true, .leaf []⟩,
      ⟨"optimizer", true, .leaf [("o", 2)]⟩]⟩
    ⟨some 5, [("model", Blob.leaf [("module.w", 9)])]⟩
    1 0 ⟨"ema", true, .leaf []⟩ ⟨"model", true, .leaf [("module.w", 1)]⟩
    [("module.w", 9)]
    (by decide) rfl rfl rfl rfl rfl rfl rfl
  exact ⟨by decide, rfl, h.1, by decide,
    h.2.1 2 ⟨"optimizer", true, .leaf [("o", 2)]⟩ rfl rfl (by decide) rfl,
    h.2.2⟩

end Solver
